import Mathlib

/-!
TPC-H query 5 revenue engine (`src/src/query5.cpp`).

A shallow embedding of `parseArgs`, `readTPCHData`, `processData` and
`executeQuery5` together with the library operations they call
(`std::map::at`, `std::map::operator[]`, `std::string` comparison,
`std::stod`, `std::stoi`, `std::getline`), and theorems about them.

Conventions of the embedding.

* A `double` is a `Dbl`: a finite value, an infinity or a NaN.  Finite values
  are exact rationals and arithmetic on them is exact (no rounding, so no sum or
  product of finite values leaves the finite ones); `std::stod` reports a text
  outside the range of `double` as the library does, and converts `inf` and `nan`.
* A `std::string` is a Lean `String`; its characters are compared by code
  point, which for UTF-8 text is the order of the encoded bytes.
* A C++ exception or an undefined operation is an `Except.error` carrying a
  `Fault`.
* `size_t` is 64 bits wide, `int` 32 bits.
* The file system is a partial map from a path to the contents of the file
  that can be opened there.
-/

namespace Query5

/-! ## Faults -/

/-- The ways in which the embedded code can stop without a value. -/
inductive Fault where
  /-- Exception `std::out_of_range`, thrown by `std::map::at` on an absent key, by
  `std::stoi` on a value outside the range of `int` and by `std::stod` on a value outside
  the range of `double`. -/
  | out_of_range
  /-- Exception `std::invalid_argument`, thrown by `std::stod` and `std::stoi` when no
  conversion can be performed. -/
  | invalid_argument
  /-- Undefined behaviour: a vector subscript past the end, an integer division by zero. -/
  | undefined
  /-- Call of `std::terminate`: an exception left the function of a `std::thread`. -/
  | terminate
  deriving DecidableEq, Repr

deriving instance DecidableEq for Except

/-! ## Doubles -/

/-- A `double`: a finite value, held exactly, an infinity or a NaN. -/
inductive Dbl where
  /-- A finite value. -/
  | fin (q : ℚ)
  /-- An infinity, negative when the flag is set. -/
  | inf (negative : Bool)
  /-- A NaN. -/
  | nan
  deriving DecidableEq, Repr

namespace Dbl

/-- The operator `+` on `double`: exact on finite values; an infinity absorbs a finite
value, two infinities of opposite signs give a NaN, a NaN gives a NaN. -/
def add : Dbl → Dbl → Dbl
  | fin a, fin b => fin (a + b)
  | fin _, inf t => inf t
  | fin _, nan => nan
  | inf s, fin _ => inf s
  | inf s, inf t => if s = t then inf s else nan
  | inf _, nan => nan
  | nan, _ => nan

/-- The unary operator `-` on `double`. -/
def neg : Dbl → Dbl
  | fin a => fin (-a)
  | inf s => inf (!s)
  | nan => nan

/-- The operator `*` on `double`: exact on finite values; zero times an infinity is a NaN,
otherwise an infinity with the product of the signs; a NaN gives a NaN. -/
def mul : Dbl → Dbl → Dbl
  | fin a, fin b => fin (a * b)
  | fin a, inf t => if a = 0 then nan else inf (decide (a < 0) != t)
  | fin _, nan => nan
  | inf s, fin b => if b = 0 then nan else inf (s != decide (b < 0))
  | inf s, inf t => inf (s != t)
  | inf _, nan => nan
  | nan, _ => nan

instance : Zero Dbl := ⟨fin 0⟩

instance : One Dbl := ⟨fin 1⟩

instance : Add Dbl := ⟨add⟩

instance : Neg Dbl := ⟨neg⟩

instance : Sub Dbl := ⟨fun a b => add a (neg b)⟩

instance : Mul Dbl := ⟨mul⟩

instance : AddCommMonoid Dbl where
  add_assoc := by
    intro a b c
    show add (add a b) c = add a (add b c)
    cases a <;> cases b <;> cases c <;> simp only [add, add_assoc] <;>
      (try split_ifs) <;> simp_all [add]
  zero_add := by
    intro a
    show add (fin 0) a = a
    cases a <;> simp [add]
  add_zero := by
    intro a
    show add a (fin 0) = a
    cases a <;> simp [add]
  add_comm := by
    intro a b
    show add a b = add b a
    cases a <;> cases b <;> simp only [add, add_comm]
    split_ifs <;> simp_all
  nsmul := nsmulRec
  nsmul_zero := fun _ => rfl
  nsmul_succ := fun _ _ => rfl

end Dbl

/-- Whether `strtod` converts the exact value `v` without `ERANGE` (as glibc sets it): the
value rounds to a finite `double`, that is `|v| < 2^1024 - 2^970`, and it is zero, or not
below the least normal number `2^-1022`, or a subnormal number held exactly (a multiple of
`2^-1074`). -/
def inRange (v : ℚ) : Bool :=
  decide (|v| < 2 ^ 1024 - 2 ^ 970) &&
    (decide (v = 0) || decide (1 / 2 ^ 1022 ≤ |v|) || decide ((v * 2 ^ 1074).den = 1))

/-- The `double` of a converted finite value, or `std::out_of_range` on `ERANGE`. -/
def toDouble (v : ℚ) : Except Fault Dbl :=
  if inRange v then .ok (.fin v) else .error .out_of_range

/-! ## Rows, tables and the result map -/

/-- A `std::map<std::string, T>` as an association list (kept in key order by `mapSet`). -/
abbrev StrMap (α : Type) := List (String × α)

/-- A row: `std::map<std::string, std::string>`. -/
abbrev Row := StrMap String

/-- A table: `std::vector<std::map<std::string, std::string>>`. -/
abbrev Table := List Row

/-- The result map: `std::map<std::string, double>`. -/
abbrev Results := StrMap Dbl

/-- The value stored under `k`, if any (`std::map::find`). -/
def mapFind {α : Type} : StrMap α → String → Option α
  | [], _ => none
  | (k', v) :: rest, k => if k = k' then some v else mapFind rest k

/-- The function `m.at(k)`: the value under `k`, or `std::out_of_range`. -/
def mapAt {α : Type} (m : StrMap α) (k : String) : Except Fault α :=
  match mapFind m k with
  | some v => .ok v
  | none => .error .out_of_range

/-! ## String comparison -/

/-- The function `std::string::compare`: the first differing character decides, then the length. -/
def compareChars : List Char → List Char → Ordering
  | [], [] => .eq
  | [], _ :: _ => .lt
  | _ :: _, [] => .gt
  | a :: as, b :: bs =>
    if a.toNat < b.toNat then .lt
    else if b.toNat < a.toNat then .gt
    else compareChars as bs

/-- The operator `a >= b` on `std::string`. -/
def strGe (a b : String) : Bool := compareChars a.data b.data != .lt

/-- The operator `a <= b` on `std::string`. -/
def strLe (a b : String) : Bool := compareChars a.data b.data != .gt

/-- The operator `a > b` on `std::string`. -/
def strGt (a b : String) : Bool := compareChars a.data b.data == .gt

/-- The statement `m[k] = v`: overwrite the entry, or create it at its place in key order. -/
def mapSet {α : Type} : StrMap α → String → α → StrMap α
  | [], k, v => [(k, v)]
  | (k', v') :: rest, k, v =>
    if k = k' then (k, v) :: rest
    else if compareChars k.data k'.data = .lt then (k, v) :: (k', v') :: rest
    else (k', v') :: mapSet rest k v

/-- The statement `results[k] += t`: `operator[]` creates the entry with `0.0` when absent. -/
def mapAdd (results : Results) (k : String) (t : Dbl) : Results :=
  mapSet results k ((mapFind results k).getD 0 + t)

/-! ## `std::stod` -/

/-- The predicate `isspace` of the C locale. -/
def isSpace (c : Char) : Bool :=
  c = ' ' || c = '\t' || c = '\n' || c = '\x0b' || c = '\x0c' || c = '\r'

/-- The value of a decimal digit. -/
def decDigit (c : Char) : Option Nat :=
  if 48 ≤ c.toNat ∧ c.toNat ≤ 57 then some (c.toNat - 48) else none

/-- The value of a hexadecimal digit. -/
def hexDigit (c : Char) : Option Nat :=
  if 48 ≤ c.toNat ∧ c.toNat ≤ 57 then some (c.toNat - 48)
  else if 97 ≤ c.toNat ∧ c.toNat ≤ 102 then some (c.toNat - 87)
  else if 65 ≤ c.toNat ∧ c.toNat ≤ 70 then some (c.toNat - 55)
  else none

/-- ASCII lower case of a character. -/
def lowerChar (c : Char) : Nat :=
  if 65 ≤ c.toNat ∧ c.toNat ≤ 90 then c.toNat + 32 else c.toNat

/-- Drop the leading white space. -/
def skipSpaces : List Char → List Char
  | [] => []
  | c :: cs => if isSpace c then skipSpaces cs else c :: cs

/-- Read the longest run of digits of the given base, continuing the value `acc` and the
count `n`; returns the value, the number of digits read and the unread rest. -/
def takeDigits (base : Nat) (digit : Char → Option Nat) :
    List Char → Nat → Nat → Nat × Nat × List Char
  | [], acc, n => (acc, n, [])
  | c :: cs, acc, n =>
    match digit c with
    | some d => takeDigits base digit cs (acc * base + d) (n + 1)
    | none => (acc, n, c :: cs)

/-- A digit sequence with an optional radix point: the digits as one integer, the number of
digits after the point, and the unread rest; `none` when there is no digit at all. -/
def mantissa (base : Nat) (digit : Char → Option Nat) (cs : List Char) :
    Option (Nat × Nat × List Char) :=
  match takeDigits base digit cs 0 0 with
  | (ip, n1, '.' :: rest) =>
    match takeDigits base digit rest ip 0 with
    | (m, n2, rest2) => if n1 + n2 = 0 then none else some (m, n2, rest2)
  | (ip, n1, rest) => if n1 = 0 then none else some (ip, 0, rest)

/-- An optional exponent part introduced by one of the two given letters: an optional sign
and at least one decimal digit.  Without a digit there is no exponent part (value `0`). -/
def exponent (lower upper : Char) : List Char → Int
  | [] => 0
  | c :: cs =>
    if c = lower ∨ c = upper then
      match cs with
      | '-' :: ds =>
        match takeDigits 10 decDigit ds 0 0 with
        | (e, n, _) => if n = 0 then 0 else - (e : Int)
      | '+' :: ds =>
        match takeDigits 10 decDigit ds 0 0 with
        | (e, n, _) => if n = 0 then 0 else (e : Int)
      | ds =>
        match takeDigits 10 decDigit ds 0 0 with
        | (e, n, _) => if n = 0 then 0 else (e : Int)
    else 0

/-- A decimal floating constant: digits with an optional point, optional `e` exponent. -/
def decimalValue (cs : List Char) : Option ℚ :=
  match mantissa 10 decDigit cs with
  | some (m, frac, rest) => some ((m : ℚ) / 10 ^ frac * 10 ^ exponent 'e' 'E' rest)
  | none => none

/-- A hexadecimal floating constant: `0x` or `0X`, hexadecimal digits with an optional
point, optional binary `p` exponent. -/
def hexValue : List Char → Option ℚ
  | '0' :: x :: cs =>
    if x = 'x' ∨ x = 'X' then
      match mantissa 16 hexDigit cs with
      | some (m, frac, rest) => some ((m : ℚ) / 16 ^ frac * 2 ^ exponent 'p' 'P' rest)
      | none => none
    else none
  | _ => none

/-- Whether the text starts, case-insensitively, with `inf` (`INF` or `INFINITY`). -/
def startsInf : List Char → Bool
  | a :: b :: c :: _ => lowerChar a = 105 && lowerChar b = 110 && lowerChar c = 102
  | _ => false

/-- Whether the text starts, case-insensitively, with `nan`. -/
def startsNan : List Char → Bool
  | a :: b :: c :: _ => lowerChar a = 110 && lowerChar b = 97 && lowerChar c = 110
  | _ => false

/-- The unsigned subject sequence of `strtod`: the longest initial part that is an
infinity, a NaN, a hexadecimal constant or a decimal constant. -/
def unsignedValue (cs : List Char) : Except Fault Dbl :=
  if startsInf cs then .ok (.inf false)
  else if startsNan cs then .ok .nan
  else match hexValue cs with
    | some v => toDouble v
    | none =>
      match decimalValue cs with
      | some v => toDouble v
      | none => .error .invalid_argument

/-- The function `std::stod(s)` without a position argument: white space is skipped, an
optional sign and the longest numeric prefix are converted, whatever follows the prefix is
ignored; `std::invalid_argument` when there is no numeric prefix, `std::out_of_range` when
the value is outside the range of `double`. -/
def stod (s : String) : Except Fault Dbl :=
  match skipSpaces s.data with
  | '-' :: cs =>
    match unsignedValue cs with
    | .ok v => .ok (-v)
    | .error e => .error e
  | '+' :: cs => unsignedValue cs
  | cs => unsignedValue cs

/-! ## `processData` -/

/-- The test `order_date >= start_date && order_date <= end_date` of `processData`. -/
def inWindow (start_date end_date order_date : String) : Bool :=
  strGe order_date start_date && strLe order_date end_date

/-- One pass of the inner loop body of `processData`: the two keys are read with `at`, and on
equal keys the price and the discount are read and converted, in this order, and
`extended_price * (1 - discount)` is added to `total_revenue`. -/
def lineitemStep (order : Row) (total_revenue : Dbl) (lineitem : Row) : Except Fault Dbl :=
  match mapAt lineitem "L_ORDERKEY" with
  | .error e => .error e
  | .ok l_orderkey =>
    match mapAt order "O_ORDERKEY" with
    | .error e => .error e
    | .ok o_orderkey =>
      if l_orderkey = o_orderkey then
        match mapAt lineitem "L_EXTENDEDPRICE" with
        | .error e => .error e
        | .ok price_text =>
          match stod price_text with
          | .error e => .error e
          | .ok extended_price =>
            match mapAt lineitem "L_DISCOUNT" with
            | .error e => .error e
            | .ok discount_text =>
              match stod discount_text with
              | .error e => .error e
              | .ok discount => .ok (total_revenue + extended_price * (1 - discount))
      else .ok total_revenue

/-- The inner loop `for (const auto& lineitem : lineitem_data)`. -/
def lineitemLoop (order : Row) : Table → Dbl → Except Fault Dbl
  | [], total_revenue => .ok total_revenue
  | lineitem :: rest, total_revenue =>
    match lineitemStep order total_revenue lineitem with
    | .error e => .error e
    | .ok t => lineitemLoop order rest t

/-- One pass of the outer loop body of `processData` for the index `i`. -/
def orderStep (orders_data lineitem_data : Table) (start_date end_date : String)
    (total_revenue : Dbl) (i : Nat) : Except Fault Dbl :=
  match orders_data.get? i with
  | none => .error .undefined
  | some order =>
    match mapAt order "O_ORDERDATE" with
    | .error e => .error e
    | .ok order_date =>
      if inWindow start_date end_date order_date then
        lineitemLoop order lineitem_data total_revenue
      else .ok total_revenue

/-- The outer loop of `processData` over a list of indices. -/
def orderLoop (orders_data lineitem_data : Table) (start_date end_date : String) :
    List Nat → Dbl → Except Fault Dbl
  | [], total_revenue => .ok total_revenue
  | i :: rest, total_revenue =>
    match orderStep orders_data lineitem_data start_date end_date total_revenue i with
    | .error e => .error e
    | .ok t => orderLoop orders_data lineitem_data start_date end_date rest t

/-- The local part of `processData`: `total_revenue` after
`for (size_t i = start; i < end; ++i)`, starting from `0.0`. -/
def partialTotal (orders_data lineitem_data : Table) (start_date end_date : String)
    (start stop : Nat) : Except Fault Dbl :=
  orderLoop orders_data lineitem_data start_date end_date (List.range' start (stop - start)) 0

/-- The function `processData`: the loops, then `results[r_name] += total_revenue` under
the lock.  The parameter `stop` is the C++ parameter `end`. -/
def processData (orders_data lineitem_data : Table) (r_name start_date end_date : String)
    (results : Results) (start stop : Nat) : Except Fault Results :=
  match partialTotal orders_data lineitem_data start_date end_date start stop with
  | .error e => .error e
  | .ok total_revenue => .ok (mapAdd results r_name total_revenue)

/-! ## `executeQuery5` -/

/-- Conversion of an `int` to `size_t`. -/
def toSizeT (n : Int) : Nat := (n % 2 ^ 64).toNat

/-- The pair `(start, end)` computed in pass `i` of the spawning loop of `executeQuery5`;
the products and sums are `size_t` arithmetic. -/
def threadRange (total_orders : Nat) (num_threads : Int) (chunk_size : Nat) (i : Nat) :
    Nat × Nat :=
  let start := (toSizeT i * chunk_size) % 2 ^ 64
  (start, if (i : Int) = num_threads - 1 then total_orders else (start + chunk_size) % 2 ^ 64)

/-- The ranges handed to the workers, in spawning order: one for each `i` with
`0 <= i < num_threads`. -/
def partitions (total_orders : Nat) (num_threads : Int) : List (Nat × Nat) :=
  (List.range num_threads.toNat).map
    (threadRange total_orders num_threads (total_orders / toSizeT num_threads))

/-- A worker thread running `processData` on its range: an exception that leaves the
thread function ends the process through `std::terminate`. -/
def runThread (orders_data lineitem_data : Table) (r_name start_date end_date : String)
    (results : Results) (range : Nat × Nat) : Except Fault Results :=
  match processData orders_data lineitem_data r_name start_date end_date results
      range.1 range.2 with
  | .error _ => .error .terminate
  | .ok r => .ok r

/-- The workers of the given ranges, each committing under the lock, in the order of the
list (the order in which they take the lock), until all are joined. -/
def runThreads (orders_data lineitem_data : Table) (r_name start_date end_date : String) :
    List (Nat × Nat) → Results → Except Fault Results
  | [], results => .ok results
  | range :: rest, results =>
    match runThread orders_data lineitem_data r_name start_date end_date results range with
    | .error e => .error e
    | .ok r => runThreads orders_data lineitem_data r_name start_date end_date rest r

/-- The function `executeQuery5` with the workers committing in the order `schedule` of
their ranges.  The tables `customer_data`, `supplier_data`, `nation_data` and
`region_data` are parameters that the body never reads. -/
def executeQuery5Scheduled (schedule : List (Nat × Nat)) (r_name start_date end_date : String)
    (num_threads : Int) (_customer_data orders_data lineitem_data _supplier_data _nation_data
      _region_data : Table) (results : Results) : Except Fault (Bool × Results) :=
  let results0 := mapSet results r_name 0
  if toSizeT num_threads = 0 then .error .undefined
  else
    match runThreads orders_data lineitem_data r_name start_date end_date schedule results0 with
    | .error e => .error e
    | .ok r => .ok (true, r)

/-- The function `executeQuery5`, the workers committing in spawning order: the returned
flag and the result map after the call. -/
def executeQuery5 (r_name start_date end_date : String) (num_threads : Int)
    (customer_data orders_data lineitem_data supplier_data nation_data region_data : Table)
    (results : Results) : Except Fault (Bool × Results) :=
  executeQuery5Scheduled (partitions orders_data.length num_threads) r_name start_date
    end_date num_threads customer_data orders_data lineitem_data supplier_data nation_data
    region_data results

/-! ## `parseArgs` -/

/-- The function `std::stoi(s)` without a position argument: white space is skipped, an
optional sign and the longest run of decimal digits are converted, whatever follows is
ignored; `std::invalid_argument` without a digit, `std::out_of_range` outside `int`. -/
def stoi (s : String) : Except Fault Int :=
  match skipSpaces s.data with
  | '-' :: cs =>
    match takeDigits 10 decDigit cs 0 0 with
    | (v, n, _) =>
      if n = 0 then .error .invalid_argument
      else if 2 ^ 31 < v then .error .out_of_range
      else .ok (-(v : Int))
  | '+' :: cs =>
    match takeDigits 10 decDigit cs 0 0 with
    | (v, n, _) =>
      if n = 0 then .error .invalid_argument
      else if 2 ^ 31 ≤ v then .error .out_of_range
      else .ok (v : Int)
  | cs =>
    match takeDigits 10 decDigit cs 0 0 with
    | (v, n, _) =>
      if n = 0 then .error .invalid_argument
      else if 2 ^ 31 ≤ v then .error .out_of_range
      else .ok (v : Int)

/-- The six reference parameters that `parseArgs` fills. -/
structure Args where
  /-- The parameter `r_name`. -/
  r_name : String
  /-- The parameter `start_date`. -/
  start_date : String
  /-- The parameter `end_date`. -/
  end_date : String
  /-- The parameter `num_threads`. -/
  num_threads : Int
  /-- The parameter `table_path`. -/
  table_path : String
  /-- The parameter `result_path`. -/
  result_path : String
  deriving DecidableEq, Repr

/-- The default values that `parseArgs` assigns first. -/
def defaultArgs : Args :=
  { r_name := "", start_date := "", end_date := "", num_threads := 1, table_path := "",
    result_path := "" }

/-- The loop `for (int i = 1; i < argc; i++)` of `parseArgs` over the arguments that remain:
a recognised flag followed by a value (`i + 1 < argc`) stores the value and skips it, anything
else ends the loop with `return false`.  The flag of the result tells whether the loop ran
to its end. -/
def parseLoop : List String → Args → Except Fault (Bool × Args)
  | [], a => .ok (true, a)
  | [_], a => .ok (false, a)
  | arg :: value :: rest, a =>
    if arg = "--r_name" then parseLoop rest { a with r_name := value }
    else if arg = "--start_date" then parseLoop rest { a with start_date := value }
    else if arg = "--end_date" then parseLoop rest { a with end_date := value }
    else if arg = "--threads" then
      match stoi value with
      | .error e => .error e
      | .ok n => parseLoop rest { a with num_threads := n }
    else if arg = "--table_path" then parseLoop rest { a with table_path := value }
    else if arg = "--result_path" then parseLoop rest { a with result_path := value }
    else .ok (false, a)

/-- The function `parseArgs` on `argv` (of `argc` entries, the program name first): the
returned flag and the six reference parameters after the call. -/
def parseArgs (argv : List String) : Except Fault (Bool × Args) :=
  if argv.length < 13 then .ok (false, defaultArgs)
  else
    match parseLoop argv.tail defaultArgs with
    | .error e => .error e
    | .ok (false, a) => .ok (false, a)
    | .ok (true, a) =>
      if a.r_name = "" ∨ a.start_date = "" ∨ a.end_date = "" ∨ a.table_path = "" ∨
          a.result_path = "" then .ok (false, a)
      else .ok (true, a)

/-- The six flags that `parseArgs` recognises. -/
def knownFlags : List String :=
  ["--r_name", "--start_date", "--end_date", "--threads", "--table_path", "--result_path"]

/-- The arguments in flag position: every second one, each flag taking one value. -/
def flagPositions : List String → List String
  | [] => []
  | [arg] => [arg]
  | arg :: _ :: rest => arg :: flagPositions rest

/-! ## `readTPCHData` -/

/-- The pieces that repeated calls of `std::getline(stream, piece, delim)` extract until one
fails; `cur` holds, reversed, the characters of the piece being read.  The delimiter ends a
piece; the end of the text ends a piece only if a character was extracted. -/
def getlineAll (delim : Char) : List Char → List Char → List String
  | [], [] => []
  | [], c :: cur => [String.mk (c :: cur).reverse]
  | c :: cs, cur =>
    if c = delim then String.mk cur.reverse :: getlineAll delim cs []
    else getlineAll delim cs (c :: cur)

/-- The loop `while (std::getline(ss, value, '|'))` of `readTable` over the values that
remain: `row[headers[index]] = value` while `index < headers.size()`. -/
def fillRow (headers : List String) : List String → Nat → Row → Row
  | [], _, row => row
  | value :: rest, index, row =>
    match headers.get? index with
    | some header => fillRow headers rest (index + 1) (mapSet row header value)
    | none => fillRow headers rest (index + 1) row

/-- The row that `readTable` builds from one line. -/
def rowOfLine (headers : List String) (line : String) : Row :=
  fillRow headers (getlineAll '|' line.data []) 0 []

/-- A file system: the contents of the files that can be opened. -/
abbrev FileSystem := String → Option String

/-- The lambda `readTable`: `false` when the file cannot be opened, else one row for each
line is pushed onto `data`. -/
def readTable (fs : FileSystem) (filename : String) (data : Table) (headers : List String) :
    Bool × Table :=
  match fs filename with
  | none => (false, data)
  | some contents =>
    (true, data ++ (getlineAll '\n' contents.data []).map (rowOfLine headers))

/-- The header list of `customer.tbl`. -/
def customer_headers : List String :=
  ["C_CUSTKEY", "C_NAME", "C_ADDRESS", "C_NATIONKEY", "C_PHONE", "C_ACCTBAL", "C_MKTSEGMENT",
    "C_COMMENT"]

/-- The header list of `orders.tbl`. -/
def orders_headers : List String :=
  ["O_ORDERKEY", "O_CUSTKEY", "O_ORDERSTATUS", "O_TOTALPRICE", "O_ORDERDATE",
    "O_ORDERPRIORITY", "O_CLERK", "O_SHIPPRIORITY", "O_COMMENT"]

/-- The header list of `lineitem.tbl`. -/
def lineitem_headers : List String :=
  ["L_ORDERKEY", "L_PARTKEY", "L_SUPPKEY", "L_LINENUMBER", "L_QUANTITY", "L_EXTENDEDPRICE",
    "L_DISCOUNT", "L_TAX", "L_RETURNFLAG", "L_LINESTATUS", "L_SHIPDATE", "L_COMMITDATE",
    "L_RECEIPTDATE", "L_SHIPINSTRUCT", "L_SHIPMODE", "L_COMMENT"]

/-- The header list of `supplier.tbl`. -/
def supplier_headers : List String :=
  ["S_SUPPKEY", "S_NAME", "S_ADDRESS", "S_NATIONKEY", "S_PHONE", "S_ACCTBAL", "S_COMMENT"]

/-- The header list of `nation.tbl`. -/
def nation_headers : List String := ["N_NATIONKEY", "N_NAME", "N_REGIONKEY", "N_COMMENT"]

/-- The header list of `region.tbl`. -/
def region_headers : List String := ["R_REGIONKEY", "R_NAME", "R_COMMENT"]

/-- The six vectors that `readTPCHData` fills. -/
structure Tables where
  /-- The parameter `customer_data`. -/
  customer_data : Table
  /-- The parameter `orders_data`. -/
  orders_data : Table
  /-- The parameter `lineitem_data`. -/
  lineitem_data : Table
  /-- The parameter `supplier_data`. -/
  supplier_data : Table
  /-- The parameter `nation_data`. -/
  nation_data : Table
  /-- The parameter `region_data`. -/
  region_data : Table
  deriving DecidableEq, Repr

/-- The function `readTPCHData`: the six tables are read in the order customer, orders,
lineitem, supplier, nation, region, and the first failure returns `false` at once (the
operator `||` evaluates no further call). -/
def readTPCHData (fs : FileSystem) (table_path : String) (t : Tables) : Bool × Tables :=
  match readTable fs (table_path ++ "/customer.tbl") t.customer_data customer_headers with
  | (false, c) =>
    (false, ⟨c, t.orders_data, t.lineitem_data, t.supplier_data, t.nation_data, t.region_data⟩)
  | (true, c) =>
    match readTable fs (table_path ++ "/orders.tbl") t.orders_data orders_headers with
    | (false, o) =>
      (false, ⟨c, o, t.lineitem_data, t.supplier_data, t.nation_data, t.region_data⟩)
    | (true, o) =>
      match readTable fs (table_path ++ "/lineitem.tbl") t.lineitem_data lineitem_headers with
      | (false, l) => (false, ⟨c, o, l, t.supplier_data, t.nation_data, t.region_data⟩)
      | (true, l) =>
        match readTable fs (table_path ++ "/supplier.tbl") t.supplier_data supplier_headers with
        | (false, s) => (false, ⟨c, o, l, s, t.nation_data, t.region_data⟩)
        | (true, s) =>
          match readTable fs (table_path ++ "/nation.tbl") t.nation_data nation_headers with
          | (false, n) => (false, ⟨c, o, l, s, n, t.region_data⟩)
          | (true, n) =>
            match readTable fs (table_path ++ "/region.tbl") t.region_data region_headers with
            | (b, r) => (b, ⟨c, o, l, s, n, r⟩)

/-! ## Reference definitions, in the words of the specification -/

/-- The cell of a row under a column name (the empty text when the row lacks the column). -/
def cell (row : Row) (column : String) : String := (mapFind row column).getD ""

/-- The number written in a text (`0` when `std::stod` converts it to no finite value). -/
def numberOf (text : String) : ℚ :=
  match stod text with
  | .ok (.fin v) => v
  | _ => 0

/-- Revenue of one lineitem row: `extended_price * (1 - discount)`. -/
def lineitemRevenue (lineitem : Row) : ℚ :=
  numberOf (cell lineitem "L_EXTENDEDPRICE") * (1 - numberOf (cell lineitem "L_DISCOUNT"))

/-- Revenue of one order: the sum over every lineitem row whose order key equals the
order's key. -/
def orderRevenue (lineitem_data : Table) (order : Row) : ℚ :=
  ((lineitem_data.filter
    (fun lineitem => cell lineitem "L_ORDERKEY" = cell order "O_ORDERKEY")).map
      lineitemRevenue).sum

/-- Revenue of the orders `i` in `[start, stop)` whose date satisfies
`start_date <= O_ORDERDATE <= end_date` in the lexicographic order of strings. -/
def revenueSpec (orders_data lineitem_data : Table) (start_date end_date : String)
    (start stop : Nat) : ℚ :=
  ∑ i ∈ (Finset.Ico start stop).filter (fun i =>
      start_date ≤ cell (orders_data.getD i []) "O_ORDERDATE" ∧
        cell (orders_data.getD i []) "O_ORDERDATE" ≤ end_date),
    orderRevenue lineitem_data (orders_data.getD i [])

/-- Whether the row carries the column and `std::stod` converts its text to a finite
value. -/
def hasNumber (row : Row) (column : String) : Bool :=
  match mapFind row column with
  | none => false
  | some text =>
    match stod text with
    | .ok (.fin _) => true
    | _ => false

/-- An orders row carrying the two columns that `processData` reads. -/
def orderOk (order : Row) : Bool :=
  (mapFind order "O_ORDERKEY").isSome && (mapFind order "O_ORDERDATE").isSome

/-- A lineitem row carrying the three columns that `processData` reads, the price and the
discount being texts that `std::stod` converts to finite values. -/
def lineitemOk (lineitem : Row) : Bool :=
  (mapFind lineitem "L_ORDERKEY").isSome && hasNumber lineitem "L_EXTENDEDPRICE" &&
    hasNumber lineitem "L_DISCOUNT"

/-- A well-formed dataset: every row carries the columns read, and `std::stod` converts the
numeric fields to finite values (in particular without `std::out_of_range`). -/
def WellFormed (orders_data lineitem_data : Table) : Prop :=
  (∀ order ∈ orders_data, orderOk order = true) ∧
    (∀ lineitem ∈ lineitem_data, lineitemOk lineitem = true)

/-- A lineitem row that matches only orders outside the date window: it has an order key,
and every order of the table that carries a date either has it outside
`[start_date, end_date]` or has a different order key. -/
def MatchesOnlyOutside (orders_data : Table) (start_date end_date : String)
    (lineitem : Row) : Prop :=
  ∃ k, mapFind lineitem "L_ORDERKEY" = some k ∧
    ∀ order ∈ orders_data, ∀ d, mapFind order "O_ORDERDATE" = some d →
      (d < start_date ∨ end_date < d) ∨
        ∃ k', mapFind order "O_ORDERKEY" = some k' ∧ k' ≠ k

/-- A list of ranges that follow one another from `s` up to `e`. -/
def Chained : List (Nat × Nat) → Nat → Nat → Prop
  | [], s, e => s = e
  | p :: rest, s, e => p.1 = s ∧ s ≤ p.2 ∧ Chained rest p.2 e

/-! ## Example data -/

/-- An orders row with the two columns read by the engine. -/
def mkOrder (key date : String) : Row := [("O_ORDERDATE", date), ("O_ORDERKEY", key)]

/-- A lineitem row with the three columns read by the engine. -/
def mkLineitem (orderkey price discount : String) : Row :=
  [("L_DISCOUNT", discount), ("L_EXTENDEDPRICE", price), ("L_ORDERKEY", orderkey)]

/-- The orders table of the end-to-end scenario. -/
def scenarioOrders : Table := [mkOrder "1" "1995-06-01"]

/-- The lineitem table of the end-to-end scenario. -/
def scenarioLineitem : Table := [mkLineitem "1" "100.00" "0.10"]

/-- Four orders inside the window. -/
def fourOrders : Table :=
  [mkOrder "1" "1995-02-01", mkOrder "2" "1995-03-01", mkOrder "3" "1995-04-01",
    mkOrder "4" "1995-05-01"]

/-- One lineitem row for each of the four orders, each worth `25.0`. -/
def fourLineitems : Table :=
  [mkLineitem "1" "25.00" "0", mkLineitem "2" "50.00" "0.5", mkLineitem "3" "100" "0.75",
    mkLineitem "4" "25" "0.0"]

/-- Reading the column fails without a value: the row lacks it, or `std::stod` finds no
numeric prefix in its text. -/
def Unconvertible (row : Row) (column : String) : Prop :=
  ∀ text, mapFind row column = some text → stod text = .error .invalid_argument

/-- The lineitem table of the scenario with garbage after the price. -/
def garbageLineitem : Table := [mkLineitem "1" "100.00abc" "0.10"]

/-- The lineitem table of the scenario with a price that is no number. -/
def malformedLineitem : Table := [mkLineitem "1" "abc" "0.10"]

/-- An order inside the window and an order outside of it. -/
def windowOrders : Table := [mkOrder "1" "1995-06-01", mkOrder "2" "1996-06-01"]

/-- A lineitem row for each of the two orders, the second one without numbers. -/
def windowLineitem : Table := [mkLineitem "1" "100.00" "0.10", mkLineitem "2" "n/a" ""]

/-- The rows of order key `1`. -/
def keepKeyOne (lineitem : Row) : Bool := cell lineitem "L_ORDERKEY" == "1"

/-- The five flags that `parseArgs` requires. -/
def requiredFlags : List String :=
  ["--r_name", "--start_date", "--end_date", "--table_path", "--result_path"]

/-- The six files that `readTPCHData` opens under `table_path`. -/
def tableFiles : List String :=
  ["/customer.tbl", "/orders.tbl", "/lineitem.tbl", "/supplier.tbl", "/nation.tbl",
    "/region.tbl"]

/-- The values of one line, as `readTable` extracts them. -/
def fieldsOf (line : String) : List String := getlineAll '|' line.data []

/-- The lines of a file, as `readTable` extracts them. -/
def linesOf (contents : String) : List String := getlineAll '\n' contents.data []

/-! # Lemmas -/

/-! ## Arithmetic of finite doubles -/

theorem fin_add_fin (a b : ℚ) : Dbl.fin a + Dbl.fin b = Dbl.fin (a + b) := rfl

theorem fin_mul_fin (a b : ℚ) : Dbl.fin a * Dbl.fin b = Dbl.fin (a * b) := rfl

theorem fin_zero : Dbl.fin 0 = 0 := rfl

theorem one_sub_fin (d : ℚ) : (1 : Dbl) - Dbl.fin d = Dbl.fin (1 - d) := by
  show Dbl.add (Dbl.fin 1) (Dbl.neg (Dbl.fin d)) = _
  simp [Dbl.add, Dbl.neg, sub_eq_add_neg]

/-! ## What `std::stod` does with some texts -/

theorem stod_finite_examples :
    stod "100.00" = .ok (Dbl.fin 100) ∧ stod "0.10" = .ok (Dbl.fin (1 / 10)) ∧
      stod " -1.5e2xyz" = .ok (Dbl.fin (-150)) ∧ stod "0x1.8p1" = .ok (Dbl.fin 3) ∧
      stod "0" = .ok (Dbl.fin 0) ∧ stod "0x1p-1074" = .ok (Dbl.fin (1 / 2 ^ 1074)) ∧
      stod "1.7976931348623157e308" =
        .ok (Dbl.fin (17976931348623157 * 10 ^ 292)) := by
  refine ⟨?_, ?_, ?_, ?_, ?_, ?_, ?_⟩ <;> decide!

theorem stod_out_of_range_examples :
    stod "1e999" = .error .out_of_range ∧ stod "-1e999" = .error .out_of_range ∧
      stod "1.8e308" = .error .out_of_range ∧ stod "1e-310" = .error .out_of_range ∧
      stod "1e-400" = .error .out_of_range ∧
      lineitemOk (mkLineitem "1" "1e999" "0.10") = false ∧
      lineitemOk (mkLineitem "1" "100.00" "1e-310") = false := by
  refine ⟨?_, ?_, ?_, ?_, ?_, ?_, ?_⟩ <;> decide!

theorem stod_non_finite_examples :
    stod "inf" = .ok (Dbl.inf false) ∧ stod "-INFINITY" = .ok (Dbl.inf true) ∧
      stod "nan" = .ok Dbl.nan ∧ stod "NaN(1)" = .ok Dbl.nan ∧
      lineitemOk (mkLineitem "1" "inf" "0.10") = false ∧
      stod "" = .error .invalid_argument ∧ stod "abc" = .error .invalid_argument := by
  refine ⟨?_, ?_, ?_, ?_, ?_, ?_, ?_⟩ <;> decide!

/-! ## String comparison and the order of strings -/

theorem compareChars_lt_iff : ∀ (a b : List Char), compareChars a b = .lt ↔ a < b
  | [], [] => by
    simp only [compareChars, reduceCtorEq, false_iff]
    intro h; cases h
  | [], _ :: _ => by
    simp only [compareChars, true_iff]
    exact List.Lex.nil
  | _ :: _, [] => by
    simp only [compareChars, reduceCtorEq, false_iff]
    intro h; cases h
  | a :: as, b :: bs => by
    have ih := compareChars_lt_iff as bs
    have hab : a.toNat < b.toNat ↔ a < b := Iff.rfl
    have hba : b.toNat < a.toNat ↔ b < a := Iff.rfl
    unfold compareChars
    by_cases h1 : a.toNat < b.toNat
    · simp only [h1, if_true, true_iff]
      exact List.Lex.rel (hab.1 h1)
    · by_cases h2 : b.toNat < a.toNat
      · simp only [h1, h2, if_false, if_true, reduceCtorEq, false_iff]
        intro h
        cases h with
        | cons h => exact absurd h2 (Nat.lt_irrefl _)
        | rel h => exact h1 (hab.2 h)
      · simp only [h1, h2, if_false, ih]
        constructor
        · intro h
          have : a = b := by
            apply Char.ext; apply UInt32.ext
            show a.toNat = b.toNat
            omega
          subst this
          exact List.Lex.cons h
        · intro h
          cases h with
          | cons h => exact h
          | rel h => exact absurd (hab.2 h) h1

theorem compareChars_swap : ∀ (a b : List Char), compareChars b a = (compareChars a b).swap
  | [], [] => rfl
  | [], _ :: _ => rfl
  | _ :: _, [] => rfl
  | a :: as, b :: bs => by
    have ih := compareChars_swap as bs
    unfold compareChars
    by_cases h1 : a.toNat < b.toNat
    · have h2 : ¬ b.toNat < a.toNat := by omega
      simp only [h1, h2, if_true, if_false]; rfl
    · by_cases h2 : b.toNat < a.toNat
      · simp only [h1, h2, if_true, if_false]; rfl
      · simp only [h1, h2, if_false, ih]

theorem strLe_iff (a b : String) : strLe a b = true ↔ a ≤ b := by
  rw [String.le_iff_toList_le, ← not_lt, ← compareChars_lt_iff, compareChars_swap]
  unfold strLe String.toList
  generalize compareChars a.data b.data = o
  cases o <;> simp [Ordering.swap] <;> decide

theorem strGe_iff (a b : String) : strGe a b = true ↔ b ≤ a := by
  rw [String.le_iff_toList_le, ← not_lt, ← compareChars_lt_iff]
  unfold strGe String.toList
  generalize compareChars a.data b.data = o
  cases o <;> simp <;> decide

theorem inWindow_iff (sd ed d : String) : inWindow sd ed d = true ↔ sd ≤ d ∧ d ≤ ed := by
  simp [inWindow, strGe_iff, strLe_iff]

/-! ## The result map -/

theorem mapFind_mapSet_self {α : Type} (m : StrMap α) (k : String) (v : α) :
    mapFind (mapSet m k v) k = some v := by
  induction m with
  | nil => simp [mapSet, mapFind]
  | cons p rest ih =>
    obtain ⟨k', v'⟩ := p
    unfold mapSet
    by_cases h1 : k = k'
    · simp [h1, mapFind]
    · by_cases h2 : compareChars k.data k'.data = .lt
      · simp [h1, h2, mapFind]
      · simp [h1, h2, mapFind, ih]

theorem mapFind_mapSet_other {α : Type} (m : StrMap α) (k k' : String) (v : α) (h : k' ≠ k) :
    mapFind (mapSet m k v) k' = mapFind m k' := by
  induction m with
  | nil => simp [mapSet, mapFind, h]
  | cons p rest ih =>
    obtain ⟨k₀, v₀⟩ := p
    unfold mapSet
    by_cases h1 : k = k₀
    · subst h1; simp [mapFind, h]
    · by_cases h2 : compareChars k.data k₀.data = .lt
      · simp [h1, h2, mapFind, h]
      · simp [h1, h2, mapFind, ih]

theorem mapSet_mapSet {α : Type} (m : StrMap α) (k : String) (v w : α) :
    mapSet (mapSet m k v) k w = mapSet m k w := by
  induction m with
  | nil => simp [mapSet]
  | cons p rest ih =>
    obtain ⟨k₀, v₀⟩ := p
    by_cases h1 : k = k₀
    · simp [mapSet, h1]
    · by_cases h2 : compareChars k.data k₀.data = .lt
      · simp [mapSet, h1, h2]
      · simp [mapSet, h1, h2, ih]

theorem mapAdd_mapSet (m : Results) (k : String) (v t : Dbl) :
    mapAdd (mapSet m k v) k t = mapSet m k (v + t) := by
  simp [mapAdd, mapFind_mapSet_self, mapSet_mapSet]

theorem mapAdd_mapAdd (m : Results) (k : String) (a b : Dbl) :
    mapAdd (mapAdd m k a) k b = mapSet m k ((mapFind m k).getD 0 + (a + b)) := by
  unfold mapAdd
  simp [mapFind_mapSet_self, mapSet_mapSet, add_assoc]

theorem mapAdd_comm (m : Results) (k : String) (a b : Dbl) :
    mapAdd (mapAdd m k a) k b = mapAdd (mapAdd m k b) k a := by
  rw [mapAdd_mapAdd, mapAdd_mapAdd, add_comm a b]

theorem mapFind_mapAdd_self (m : Results) (k : String) (t : Dbl) :
    mapFind (mapAdd m k t) k = some ((mapFind m k).getD 0 + t) := by
  simp [mapAdd, mapFind_mapSet_self]

theorem mapFind_mapAdd_other (m : Results) (k k' : String) (t : Dbl) (h : k' ≠ k) :
    mapFind (mapAdd m k t) k' = mapFind m k' := by
  simp [mapAdd, mapFind_mapSet_other _ _ _ _ h]

/-! ## The loops: the accumulator only shifts the result -/

theorem lineitemStep_shift (order lineitem : Row) (t : Dbl) :
    lineitemStep order t lineitem = (lineitemStep order 0 lineitem).map (t + ·) := by
  unfold lineitemStep
  cases mapAt lineitem "L_ORDERKEY" <;> simp only [Except.map]
  cases mapAt order "O_ORDERKEY" <;> simp only []
  split
  · cases mapAt lineitem "L_EXTENDEDPRICE" <;> simp only []
    rename_i p
    cases stod p <;> simp only []
    cases mapAt lineitem "L_DISCOUNT" <;> simp only []
    rename_i d
    cases stod d <;> simp only [zero_add]
  · simp only [add_zero]

theorem lineitemLoop_shift (order : Row) (lineitem_data : Table) (t : Dbl) :
    lineitemLoop order lineitem_data t = (lineitemLoop order lineitem_data 0).map (t + ·) := by
  induction lineitem_data generalizing t with
  | nil => simp [lineitemLoop, Except.map]
  | cons l rest ih =>
    unfold lineitemLoop
    rw [lineitemStep_shift order l t]
    cases lineitemStep order 0 l with
    | error e => rfl
    | ok x =>
      simp only [Except.map]
      rw [ih (t + x), ih x]
      cases lineitemLoop order rest 0 with
      | error e => rfl
      | ok y => simp [Except.map, add_assoc]

theorem orderStep_shift (orders_data lineitem_data : Table) (sd ed : String) (t : Dbl) (i : Nat) :
    orderStep orders_data lineitem_data sd ed t i =
      (orderStep orders_data lineitem_data sd ed 0 i).map (t + ·) := by
  unfold orderStep
  cases orders_data.get? i <;> simp only [Except.map]
  rename_i order
  cases mapAt order "O_ORDERDATE" <;> simp only []
  split
  · exact lineitemLoop_shift order lineitem_data t
  · simp only [add_zero]

theorem orderLoop_shift (orders_data lineitem_data : Table) (sd ed : String) (is : List Nat)
    (t : Dbl) :
    orderLoop orders_data lineitem_data sd ed is t =
      (orderLoop orders_data lineitem_data sd ed is 0).map (t + ·) := by
  induction is generalizing t with
  | nil => simp [orderLoop, Except.map]
  | cons i rest ih =>
    unfold orderLoop
    rw [orderStep_shift orders_data lineitem_data sd ed t i]
    cases orderStep orders_data lineitem_data sd ed 0 i with
    | error e => rfl
    | ok x =>
      simp only [Except.map]
      rw [ih (t + x), ih x]
      cases orderLoop orders_data lineitem_data sd ed rest 0 with
      | error e => rfl
      | ok y => simp [Except.map, add_assoc]

theorem orderLoop_append (orders_data lineitem_data : Table) (sd ed : String)
    (is js : List Nat) (t : Dbl) :
    orderLoop orders_data lineitem_data sd ed (is ++ js) t =
      match orderLoop orders_data lineitem_data sd ed is t with
      | .error e => .error e
      | .ok t' => orderLoop orders_data lineitem_data sd ed js t' := by
  induction is generalizing t with
  | nil => simp [orderLoop]
  | cons i rest ih =>
    simp only [List.cons_append, orderLoop]
    cases orderStep orders_data lineitem_data sd ed t i with
    | error e => rfl
    | ok x => exact ih x

theorem partialTotal_split (orders_data lineitem_data : Table) (sd ed : String)
    (s m e : Nat) (h1 : s ≤ m) (h2 : m ≤ e) :
    partialTotal orders_data lineitem_data sd ed s e =
      match partialTotal orders_data lineitem_data sd ed s m with
      | .error x => .error x
      | .ok a =>
        match partialTotal orders_data lineitem_data sd ed m e with
        | .error x => .error x
        | .ok b => .ok (a + b) := by
  unfold partialTotal
  have hr : List.range' s (e - s) = List.range' s (m - s) ++ List.range' m (e - m) := by
    have : List.range' m (e - m) = List.range' (s + (m - s)) (e - m) := by
      congr 1; omega
    rw [this, List.range'_append_1]
    congr 1; omega
  rw [hr, orderLoop_append]
  cases orderLoop orders_data lineitem_data sd ed (List.range' s (m - s)) 0 with
  | error x => rfl
  | ok a =>
    simp only
    rw [orderLoop_shift]
    cases orderLoop orders_data lineitem_data sd ed (List.range' m (e - m)) 0 with
    | error x => rfl
    | ok b => rfl

theorem Chained.le : ∀ {ps : List (Nat × Nat)} {s e : Nat}, Chained ps s e → s ≤ e
  | [], _, _, h => Nat.le_of_eq h
  | _ :: _, _, _, h => Nat.le_trans h.2.1 (Chained.le h.2.2)

theorem partialTotal_empty (orders_data lineitem_data : Table) (sd ed : String) (s : Nat) :
    partialTotal orders_data lineitem_data sd ed s s = .ok 0 := by
  simp [partialTotal, orderLoop]

theorem runThread_eq (orders_data lineitem_data : Table) (r sd ed : String)
    (results : Results) (p : Nat × Nat) :
    runThread orders_data lineitem_data r sd ed results p =
      match partialTotal orders_data lineitem_data sd ed p.1 p.2 with
      | .error _ => .error .terminate
      | .ok t => .ok (mapAdd results r t) := by
  unfold runThread processData
  cases partialTotal orders_data lineitem_data sd ed p.1 p.2 <;> rfl

theorem runThreads_chained (orders_data lineitem_data : Table) (r sd ed : String) :
    ∀ (ps : List (Nat × Nat)) (s e : Nat) (base : Results) (v : Dbl), Chained ps s e →
      runThreads orders_data lineitem_data r sd ed ps (mapSet base r v) =
        match partialTotal orders_data lineitem_data sd ed s e with
        | .error _ => .error .terminate
        | .ok t => .ok (mapSet base r (v + t))
  | [], s, e, base, v, h => by
    have h' : s = e := h
    subst h'
    simp [runThreads, partialTotal_empty]
  | p :: rest, s, e, base, v, h => by
    obtain ⟨h1, h2, h3⟩ := h
    have ih := fun w => runThreads_chained orders_data lineitem_data r sd ed rest p.2 e base w h3
    rw [partialTotal_split orders_data lineitem_data sd ed s p.2 e h2 (Chained.le h3)]
    unfold runThreads
    rw [runThread_eq, h1]
    cases partialTotal orders_data lineitem_data sd ed s p.2 with
    | error x => rfl
    | ok a =>
      simp only [mapAdd_mapSet]
      rw [ih (v + a)]
      cases partialTotal orders_data lineitem_data sd ed p.2 e with
      | error x => rfl
      | ok b => simp only [add_assoc]

theorem runThreads_perm (orders_data lineitem_data : Table) (r sd ed : String)
    {ps qs : List (Nat × Nat)} (h : ps.Perm qs) :
    ∀ results, runThreads orders_data lineitem_data r sd ed ps results =
      runThreads orders_data lineitem_data r sd ed qs results := by
  induction h with
  | nil => intro results; rfl
  | cons p _ ih =>
    intro results
    unfold runThreads
    cases runThread orders_data lineitem_data r sd ed results p with
    | error x => rfl
    | ok res => exact ih res
  | swap p q l =>
    intro results
    simp only [runThreads, runThread_eq]
    cases partialTotal orders_data lineitem_data sd ed p.1 p.2 <;>
      cases partialTotal orders_data lineitem_data sd ed q.1 q.2 <;> simp only []
    rw [mapAdd_comm]
  | trans _ _ ih1 ih2 => intro results; rw [ih1, ih2]

/-! ## Arithmetic of the ranges -/

theorem toSizeT_natCast (n : Nat) (h : n < 2 ^ 64) : toSizeT (n : Int) = n := by
  unfold toSizeT
  omega

theorem mul_div_le_total (total n i : Nat) (h : i ≤ n) : i * (total / n) ≤ total :=
  Nat.le_trans (Nat.mul_le_mul_right _ h) (Nat.mul_div_le total n)

theorem threadRange_eq (total n i : Nat) (hn : n < 2 ^ 31) (ht : total < 2 ^ 64)
    (hi : i < n) :
    threadRange total (n : Int) (total / toSizeT (n : Int)) i =
      (i * (total / n), if i + 1 = n then total else i * (total / n) + total / n) := by
  have hn' : toSizeT (n : Int) = n := toSizeT_natCast n (by omega)
  have hi' : toSizeT (i : Int) = i := toSizeT_natCast i (by omega)
  have h1 : i * (total / n) ≤ total := mul_div_le_total total n i (Nat.le_of_lt hi)
  have h2 : (i + 1) * (total / n) ≤ total := mul_div_le_total total n (i + 1) hi
  have h3 : (i + 1) * (total / n) = i * (total / n) + total / n := by ring
  unfold threadRange
  simp only [hn', hi']
  have hc : ((i : Int) = (n : Int) - 1) ↔ (i + 1 = n) := by omega
  rw [Nat.mod_eq_of_lt (by omega), Nat.mod_eq_of_lt (by omega)]
  simp only [hc]

theorem partitions_eq (total n : Nat) (hn : n < 2 ^ 31) (ht : total < 2 ^ 64) :
    partitions total (n : Int) = (List.range n).map (fun i =>
      (i * (total / n), if i + 1 = n then total else i * (total / n) + total / n)) := by
  unfold partitions
  simp only [Int.toNat_ofNat]
  apply List.map_congr_left
  intro i hi
  exact threadRange_eq total n i hn ht (List.mem_range.1 hi)

theorem chained_ranges (total n : Nat) :
    ∀ (k j : Nat), j + k + 1 = n →
      Chained ((List.range' j (k + 1)).map (fun i =>
        (i * (total / n), if i + 1 = n then total else i * (total / n) + total / n)))
        (j * (total / n)) total
  | 0, j, h => by
    have h1 : j * (total / n) ≤ total := mul_div_le_total total n j (by omega)
    simp [List.range', Chained, h, h1]
  | k + 1, j, h => by
    have ih := chained_ranges total n k (j + 1) (by omega)
    have hne : ¬ (j + 1 = n) := by omega
    rw [List.range'_succ, List.map_cons]
    refine ⟨rfl, ?_, ?_⟩
    · simp [hne]
    · simp only [hne, if_false]
      have : j * (total / n) + total / n = (j + 1) * (total / n) := by ring
      rw [this]
      exact ih

theorem partitions_chained (total n : Nat) (h1 : 1 ≤ n) (hn : n < 2 ^ 31)
    (ht : total < 2 ^ 64) : Chained (partitions total (n : Int)) 0 total := by
  rw [partitions_eq total n hn ht, List.range_eq_range']
  have := chained_ranges total n (n - 1) 0 (by omega)
  rw [Nat.zero_mul] at this
  have h2 : n - 1 + 1 = n := by omega
  rw [h2] at this
  exact this

/-! ## The loops on well-formed data -/

theorem hasNumber_elim {row : Row} {column : String} (h : hasNumber row column = true) :
    ∃ text v, mapFind row column = some text ∧ stod text = .ok (.fin v) := by
  unfold hasNumber at h
  cases hm : mapFind row column with
  | none => simp [hm] at h
  | some text =>
    cases hs : stod text with
    | error e => simp [hm, hs] at h
    | ok v =>
      cases v with
      | fin q => exact ⟨text, q, rfl, hs⟩
      | inf s => simp [hm, hs] at h
      | nan => simp [hm, hs] at h

theorem lineitemStep_wf (order lineitem : Row) (t : Dbl) (k : String)
    (hk : mapFind order "O_ORDERKEY" = some k) (hl : lineitemOk lineitem = true) :
    lineitemStep order t lineitem =
      .ok (t + Dbl.fin (if cell lineitem "L_ORDERKEY" = cell order "O_ORDERKEY"
        then lineitemRevenue lineitem else 0)) := by
  simp only [lineitemOk, Bool.and_eq_true] at hl
  obtain ⟨⟨h1, h2⟩, h3⟩ := hl
  obtain ⟨lk, hlk⟩ := Option.isSome_iff_exists.1 h1
  obtain ⟨p, pv, hp, hpv⟩ := hasNumber_elim h2
  obtain ⟨d, dv, hd, hdv⟩ := hasNumber_elim h3
  simp only [lineitemStep, mapAt, hlk, hk, hp, hd, hpv, hdv, cell, lineitemRevenue, numberOf,
    Option.getD_some, one_sub_fin, fin_mul_fin]
  split
  · rfl
  · rw [fin_zero, add_zero]

theorem lineitemLoop_wf (order : Row) (k : String)
    (hk : mapFind order "O_ORDERKEY" = some k) :
    ∀ (lineitem_data : Table) (t : Dbl), (∀ l ∈ lineitem_data, lineitemOk l = true) →
      lineitemLoop order lineitem_data t =
        .ok (t + Dbl.fin (orderRevenue lineitem_data order))
  | [], t, _ => by
    simp only [lineitemLoop, orderRevenue, List.filter_nil, List.map_nil, List.sum_nil,
      fin_zero, add_zero]
  | l :: rest, t, h => by
    have ih := lineitemLoop_wf order k hk rest
    unfold lineitemLoop
    rw [lineitemStep_wf order l t k hk (h l (List.mem_cons_self _ _))]
    simp only
    rw [ih _ (fun l' hl' => h l' (List.mem_cons_of_mem _ hl')), add_assoc, fin_add_fin]
    unfold orderRevenue
    by_cases hm : cell l "L_ORDERKEY" = cell order "O_ORDERKEY"
    · simp [hm, List.filter_cons]
    · simp [hm, List.filter_cons]

theorem orderStep_wf (orders_data lineitem_data : Table) (sd ed : String) (t : Dbl) (i : Nat)
    (hw : WellFormed orders_data lineitem_data) (hi : i < orders_data.length) :
    orderStep orders_data lineitem_data sd ed t i =
      .ok (t + Dbl.fin (if sd ≤ cell (orders_data.getD i []) "O_ORDERDATE" ∧
          cell (orders_data.getD i []) "O_ORDERDATE" ≤ ed
        then orderRevenue lineitem_data (orders_data.getD i []) else 0)) := by
  have hget : orders_data.get? i = some (orders_data.getD i []) := by
    simp [List.getD, List.get?_eq_get hi, List.getElem?_eq_getElem hi]
  have hmem : orders_data.getD i [] ∈ orders_data := List.get?_mem hget
  have hok := hw.1 _ hmem
  simp only [orderOk, Bool.and_eq_true] at hok
  obtain ⟨k, hk⟩ := Option.isSome_iff_exists.1 hok.1
  obtain ⟨d, hd⟩ := Option.isSome_iff_exists.1 hok.2
  simp only [orderStep, hget, mapAt, hd, cell, Option.getD_some]
  by_cases hwin : inWindow sd ed d = true
  · have := (inWindow_iff sd ed d).1 hwin
    simp only [hwin, if_true, this, and_self]
    rw [lineitemLoop_wf _ k hk lineitem_data t hw.2]
  · have : ¬ (sd ≤ d ∧ d ≤ ed) := fun h => hwin ((inWindow_iff sd ed d).2 h)
    simp only [hwin, this, if_false, Bool.false_eq_true, fin_zero, add_zero]

theorem revenueSpec_succ_bot (orders_data lineitem_data : Table) (sd ed : String)
    (s e : Nat) (h : s < e) :
    revenueSpec orders_data lineitem_data sd ed s e =
      (if sd ≤ cell (orders_data.getD s []) "O_ORDERDATE" ∧
          cell (orders_data.getD s []) "O_ORDERDATE" ≤ ed
        then orderRevenue lineitem_data (orders_data.getD s []) else 0) +
      revenueSpec orders_data lineitem_data sd ed (s + 1) e := by
  unfold revenueSpec
  rw [Finset.sum_filter, Finset.sum_filter, Finset.sum_eq_sum_Ico_succ_bot h]

theorem orderLoop_wf (orders_data lineitem_data : Table) (sd ed : String)
    (hw : WellFormed orders_data lineitem_data) :
    ∀ (n s : Nat) (t : Dbl), s + n ≤ orders_data.length →
      orderLoop orders_data lineitem_data sd ed (List.range' s n) t =
        .ok (t + Dbl.fin (revenueSpec orders_data lineitem_data sd ed s (s + n)))
  | 0, s, t, _ => by
    have h0 : revenueSpec orders_data lineitem_data sd ed s s = 0 := by
      simp [revenueSpec]
    simp only [List.range'_zero, orderLoop, Nat.add_zero, h0, fin_zero, add_zero]
  | n + 1, s, t, h => by
    have ih := orderLoop_wf orders_data lineitem_data sd ed hw n (s + 1)
    rw [List.range'_succ]
    unfold orderLoop
    rw [orderStep_wf orders_data lineitem_data sd ed t s hw (by omega)]
    simp only
    rw [ih _ (by omega), revenueSpec_succ_bot orders_data lineitem_data sd ed s (s + (n + 1))
      (by omega)]
    have : s + 1 + n = s + (n + 1) := by omega
    rw [this, add_assoc, fin_add_fin]

theorem partialTotal_wf (orders_data lineitem_data : Table) (sd ed : String)
    (start stop : Nat) (hw : WellFormed orders_data lineitem_data) (h1 : start ≤ stop)
    (h2 : stop ≤ orders_data.length) :
    partialTotal orders_data lineitem_data sd ed start stop =
      .ok (Dbl.fin (revenueSpec orders_data lineitem_data sd ed start stop)) := by
  unfold partialTotal
  rw [orderLoop_wf orders_data lineitem_data sd ed hw (stop - start) start 0 (by omega)]
  have : start + (stop - start) = stop := by omega
  rw [this, zero_add]

/-! ## The ranges as a partition of the orders -/

theorem partitions_length (total n : Nat) : (partitions total (n : Int)).length = n := by
  simp [partitions]

theorem partitions_get? (total n i : Nat) (hn : n < 2 ^ 31) (ht : total < 2 ^ 64)
    (hi : i < n) :
    (partitions total (n : Int)).get? i =
      some (i * (total / n), if i + 1 = n then total else i * (total / n) + total / n) := by
  rw [partitions_eq total n hn ht]
  simp [List.getElem?_map, List.getElem?_range hi]

theorem partitions_get?_lt (total n i : Nat) (p : Nat × Nat)
    (h : (partitions total (n : Int)).get? i = some p) : i < n := by
  have := List.get?_eq_some.1 h
  obtain ⟨hlt, _⟩ := this
  rw [partitions_length] at hlt
  exact hlt

theorem range_bounds (total n i : Nat) (hi : i < n) :
    i * (total / n) ≤ (if i + 1 = n then total else i * (total / n) + total / n) ∧
      (if i + 1 = n then total else i * (total / n) + total / n) ≤ total := by
  have h1 : i * (total / n) ≤ total := mul_div_le_total total n i (Nat.le_of_lt hi)
  have h2 : (i + 1) * (total / n) ≤ total := mul_div_le_total total n (i + 1) hi
  have h3 : (i + 1) * (total / n) = i * (total / n) + total / n := by ring
  rw [h3] at h2
  generalize total / n = c at *
  generalize i * c = s at *
  split <;> omega

theorem range_disjoint (total n i j : Nat) (hij : i < j) (hj : j < n) :
    (if i + 1 = n then total else i * (total / n) + total / n) ≤ j * (total / n) := by
  have hne : ¬ (i + 1 = n) := by omega
  simp only [hne, if_false]
  have h3 : (i + 1) * (total / n) = i * (total / n) + total / n := by ring
  rw [← h3]
  exact Nat.mul_le_mul_right _ hij

theorem range_cover (total n x : Nat) (h1 : 1 ≤ n) (hx : x < total) :
    ∃ i, i < n ∧ i * (total / n) ≤ x ∧
      x < (if i + 1 = n then total else i * (total / n) + total / n) := by
  generalize total / n = c
  by_cases hc : x / c + 1 < n ∧ 0 < c
  · obtain ⟨hlt, hpos⟩ := hc
    refine ⟨x / c, by omega, Nat.div_mul_le_self x _, ?_⟩
    have hne : ¬ (x / c + 1 = n) := by omega
    simp only [hne, if_false]
    have h2 := Nat.div_add_mod x c
    have h3 := Nat.mod_lt x hpos
    rw [Nat.mul_comm] at h2
    generalize x / c * c = y at *
    omega
  · refine ⟨n - 1, by omega, ?_, ?_⟩
    · by_cases h0 : c = 0
      · simp [h0]
      · have hge : n - 1 ≤ x / c := by omega
        exact Nat.le_trans (Nat.mul_le_mul_right _ hge) (Nat.div_mul_le_self x c)
    · have : n - 1 + 1 = n := by omega
      simp [this, hx]

theorem partitions_unique_range (total n x : Nat) (h1 : 1 ≤ n) (hn : n < 2 ^ 31)
    (ht : total < 2 ^ 64) (hx : x < total) :
    ∃! i, ∃ p, (partitions total (n : Int)).get? i = some p ∧ p.1 ≤ x ∧ x < p.2 := by
  obtain ⟨i, hi, h2, h3⟩ := range_cover total n x h1 hx
  refine ⟨i, ⟨_, partitions_get? total n i hn ht hi, h2, h3⟩, ?_⟩
  rintro j ⟨q, hq, hq1, hq2⟩
  have hj := partitions_get?_lt total n j q hq
  rw [partitions_get? total n j hn ht hj] at hq
  cases hq
  rcases Nat.lt_trichotomy j i with hlt | heq | hgt
  · have := range_disjoint total n j i hlt hi
    simp only at hq2
    omega
  · exact heq
  · have := range_disjoint total n i j hgt hj
    simp only at hq1
    omega

theorem chained_sum : ∀ (ps : List (Nat × Nat)) (s e : Nat), Chained ps s e →
    (ps.map (fun p => p.2 - p.1)).sum = e - s
  | [], s, e, h => by
    have h' : s = e := h
    simp [h']
  | p :: rest, s, e, h => by
    obtain ⟨h1, h2, h3⟩ := h
    have ih := chained_sum rest p.2 e h3
    have hle := Chained.le h3
    simp only [List.map_cons, List.sum_cons, ih]
    omega

theorem executeQuery5_eq (r_name start_date end_date : String) (n : Nat)
    (customer_data orders_data lineitem_data supplier_data nation_data region_data : Table)
    (results : Results) (h1 : 1 ≤ n) (h2 : n < 2 ^ 31) (h3 : orders_data.length < 2 ^ 64) :
    executeQuery5 r_name start_date end_date (n : Int) customer_data orders_data lineitem_data
        supplier_data nation_data region_data results =
      match partialTotal orders_data lineitem_data start_date end_date 0 orders_data.length with
      | .error _ => .error .terminate
      | .ok t => .ok (true, mapSet results r_name t) := by
  unfold executeQuery5 executeQuery5Scheduled
  have hz : toSizeT (n : Int) ≠ 0 := by
    rw [toSizeT_natCast n (by omega)]; omega
  simp only [hz, if_false]
  rw [runThreads_chained orders_data lineitem_data r_name start_date end_date _ 0
    orders_data.length results 0 (partitions_chained orders_data.length n h1 h2 h3)]
  cases partialTotal orders_data lineitem_data start_date end_date 0 orders_data.length with
  | error x => rfl
  | ok t => simp only [zero_add]

theorem runThreads_wf (orders_data lineitem_data : Table) (r sd ed : String)
    (hw : WellFormed orders_data lineitem_data) :
    ∀ (ps : List (Nat × Nat)) (results : Results),
      (∀ p ∈ ps, p.1 ≤ p.2 ∧ p.2 ≤ orders_data.length) →
      runThreads orders_data lineitem_data r sd ed ps results =
        .ok (ps.foldl (fun res p =>
          mapAdd res r (Dbl.fin (revenueSpec orders_data lineitem_data sd ed p.1 p.2))) results)
  | [], results, _ => rfl
  | p :: rest, results, h => by
    have hp := h p (List.mem_cons_self _ _)
    unfold runThreads
    rw [runThread_eq, partialTotal_wf orders_data lineitem_data sd ed p.1 p.2 hw hp.1 hp.2]
    simp only [List.foldl_cons]
    exact runThreads_wf orders_data lineitem_data r sd ed hw rest _
      (fun q hq => h q (List.mem_cons_of_mem _ hq))

theorem partitions_mem_bounds (total n : Nat) (hn : n < 2 ^ 31) (ht : total < 2 ^ 64)
    (p : Nat × Nat) (hp : p ∈ partitions total (n : Int)) : p.1 ≤ p.2 ∧ p.2 ≤ total := by
  obtain ⟨i, hi⟩ := List.mem_iff_get?.1 hp
  have hlt := partitions_get?_lt total n i p hi
  rw [partitions_get? total n i hn ht hlt] at hi
  cases hi
  exact range_bounds total n i hlt

/-! ## Steps that leave the total alone, steps that fail -/

theorem orderLoop_skip (orders_data lineitem_data : Table) (sd ed : String) :
    ∀ (is : List Nat) (t : Dbl),
      (∀ i ∈ is, ∀ t', orderStep orders_data lineitem_data sd ed t' i = .ok t') →
      orderLoop orders_data lineitem_data sd ed is t = .ok t
  | [], t, _ => rfl
  | i :: rest, t, h => by
    unfold orderLoop
    rw [h i (List.mem_cons_self _ _) t]
    exact orderLoop_skip orders_data lineitem_data sd ed rest t
      (fun j hj => h j (List.mem_cons_of_mem _ hj))

theorem orderStep_outside (orders_data lineitem_data : Table) (sd ed : String) (t : Dbl)
    (i : Nat) (order : Row) (d : String) (ho : orders_data.get? i = some order)
    (hd : mapFind order "O_ORDERDATE" = some d) (hout : d < sd ∨ ed < d) :
    orderStep orders_data lineitem_data sd ed t i = .ok t := by
  have hwin : ¬ (inWindow sd ed d = true) := by
    rw [inWindow_iff]
    rintro ⟨h1, h2⟩
    rcases hout with h | h
    · exact absurd h (not_lt.2 h1)
    · exact absurd h (not_lt.2 h2)
  simp only [orderStep, ho, mapAt, hd, hwin, if_false, Bool.false_eq_true]

theorem lineitemLoop_fails (order : Row) (bad : Row)
    (hbad : ∀ t, ∃ e, lineitemStep order t bad = .error e) :
    ∀ (lineitem_data : Table) (t : Dbl), bad ∈ lineitem_data →
      ∃ e, lineitemLoop order lineitem_data t = .error e
  | [], _, h => absurd h (List.not_mem_nil _)
  | l :: rest, t, h => by
    unfold lineitemLoop
    cases hs : lineitemStep order t l with
    | error e => exact ⟨e, rfl⟩
    | ok t' =>
      rcases List.mem_cons.1 h with heq | hmem
      · subst heq
        obtain ⟨e, he⟩ := hbad t
        rw [he] at hs
        cases hs
      · exact lineitemLoop_fails order bad hbad rest t' hmem

theorem orderLoop_fails (orders_data lineitem_data : Table) (sd ed : String) (i : Nat)
    (hbad : ∀ t, ∃ e, orderStep orders_data lineitem_data sd ed t i = .error e) :
    ∀ (is : List Nat) (t : Dbl), i ∈ is →
      ∃ e, orderLoop orders_data lineitem_data sd ed is t = .error e
  | [], _, h => absurd h (List.not_mem_nil _)
  | j :: rest, t, h => by
    unfold orderLoop
    cases hs : orderStep orders_data lineitem_data sd ed t j with
    | error e => exact ⟨e, rfl⟩
    | ok t' =>
      rcases List.mem_cons.1 h with heq | hmem
      · subst heq
        obtain ⟨e, he⟩ := hbad t
        rw [he] at hs
        cases hs
      · exact orderLoop_fails orders_data lineitem_data sd ed i hbad rest t' hmem

theorem lineitemStep_unconvertible (order lineitem : Row) (k : String) (t : Dbl)
    (hk : mapFind order "O_ORDERKEY" = some k) (hlk : mapFind lineitem "L_ORDERKEY" = some k)
    (hbad : Unconvertible lineitem "L_EXTENDEDPRICE" ∨ Unconvertible lineitem "L_DISCOUNT") :
    ∃ e, lineitemStep order t lineitem = .error e := by
  simp only [lineitemStep, mapAt, hk, hlk, if_true]
  cases hp : mapFind lineitem "L_EXTENDEDPRICE" with
  | none => exact ⟨_, rfl⟩
  | some p =>
    simp only []
    cases hpv : stod p with
    | error e => exact ⟨_, rfl⟩
    | ok pv =>
      simp only []
      cases hd : mapFind lineitem "L_DISCOUNT" with
      | none => exact ⟨_, rfl⟩
      | some d =>
        simp only []
        cases hdv : stod d with
        | error e => exact ⟨_, rfl⟩
        | ok dv =>
          rcases hbad with h | h
          · rw [h p hp] at hpv; cases hpv
          · rw [h d hd] at hdv; cases hdv

/-! ## Lineitem rows that no order inside the window matches -/

theorem lineitemLoop_filter (order : Row) (keep : Row → Bool) :
    ∀ (lineitem_data : Table) (t : Dbl),
      (∀ l ∈ lineitem_data, keep l = false → ∀ t', lineitemStep order t' l = .ok t') →
      lineitemLoop order lineitem_data t = lineitemLoop order (lineitem_data.filter keep) t
  | [], _, _ => rfl
  | l :: rest, t, h => by
    have ih := fun t' => lineitemLoop_filter order keep rest t'
      (fun l' hl' => h l' (List.mem_cons_of_mem _ hl'))
    by_cases hk : keep l = true
    · rw [List.filter_cons_of_pos hk]
      unfold lineitemLoop
      cases lineitemStep order t l with
      | error e => rfl
      | ok t' => exact ih t'
    · rw [List.filter_cons_of_neg hk]
      have hk' : keep l = false := by simpa using hk
      simp only [lineitemLoop, h l (List.mem_cons_self _ _) hk' t]
      exact ih t

theorem lineitemStep_matchesOnlyOutside (orders_data : Table) (sd ed : String)
    (order lineitem : Row) (d : String) (t : Dbl) (ho : order ∈ orders_data)
    (hd : mapFind order "O_ORDERDATE" = some d) (hwin : inWindow sd ed d = true)
    (hm : MatchesOnlyOutside orders_data sd ed lineitem) :
    lineitemStep order t lineitem = .ok t := by
  obtain ⟨k, hk, hall⟩ := hm
  have hin := (inWindow_iff sd ed d).1 hwin
  rcases hall order ho d hd with hout | ⟨k', hk', hne⟩
  · rcases hout with h | h
    · exact absurd h (not_lt.2 hin.1)
    · exact absurd h (not_lt.2 hin.2)
  · have hne' : ¬ (k = k') := fun h => hne h.symm
    simp only [lineitemStep, mapAt, hk, hk', hne', if_false]

theorem orderStep_filter (orders_data lineitem_data : Table) (sd ed : String)
    (keep : Row → Bool)
    (h : ∀ l ∈ lineitem_data, keep l = false → MatchesOnlyOutside orders_data sd ed l)
    (t : Dbl) (i : Nat) :
    orderStep orders_data lineitem_data sd ed t i =
      orderStep orders_data (lineitem_data.filter keep) sd ed t i := by
  unfold orderStep
  cases ho : orders_data.get? i with
  | none => rfl
  | some order =>
    simp only []
    cases hd : mapAt order "O_ORDERDATE" with
    | error e => rfl
    | ok d =>
      simp only []
      by_cases hwin : inWindow sd ed d = true
      · simp only [hwin, if_true]
        have hd' : mapFind order "O_ORDERDATE" = some d := by
          unfold mapAt at hd
          cases hf : mapFind order "O_ORDERDATE" with
          | none => rw [hf] at hd; cases hd
          | some d' => rw [hf] at hd; cases hd; rfl
        exact lineitemLoop_filter order keep lineitem_data t (fun l hl hkl t' =>
          lineitemStep_matchesOnlyOutside orders_data sd ed order l d t' (List.get?_mem ho)
            hd' hwin (h l hl hkl))
      · simp only [hwin, if_false, Bool.false_eq_true]

theorem orderLoop_filter (orders_data lineitem_data : Table) (sd ed : String)
    (keep : Row → Bool)
    (h : ∀ l ∈ lineitem_data, keep l = false → MatchesOnlyOutside orders_data sd ed l) :
    ∀ (is : List Nat) (t : Dbl),
      orderLoop orders_data lineitem_data sd ed is t =
        orderLoop orders_data (lineitem_data.filter keep) sd ed is t
  | [], _ => rfl
  | i :: rest, t => by
    unfold orderLoop
    rw [orderStep_filter orders_data lineitem_data sd ed keep h t i]
    cases orderStep orders_data (lineitem_data.filter keep) sd ed t i with
    | error e => rfl
    | ok t' => exact orderLoop_filter orders_data lineitem_data sd ed keep h rest t'

theorem runThreads_congr (orders_data lineitem_data lineitem_data' : Table)
    (r sd ed : String)
    (h : ∀ start stop, partialTotal orders_data lineitem_data sd ed start stop =
      partialTotal orders_data lineitem_data' sd ed start stop) :
    ∀ (ps : List (Nat × Nat)) (results : Results),
      runThreads orders_data lineitem_data r sd ed ps results =
        runThreads orders_data lineitem_data' r sd ed ps results
  | [], _ => rfl
  | p :: rest, results => by
    unfold runThreads
    rw [runThread_eq, runThread_eq, h p.1 p.2]
    cases partialTotal orders_data lineitem_data' sd ed p.1 p.2 with
    | error e => rfl
    | ok t => exact runThreads_congr orders_data lineitem_data lineitem_data' r sd ed h rest _

theorem strLe_eq_false_iff (a b : String) : strLe a b = false ↔ b < a := by
  rw [← not_le, ← strLe_iff, Bool.not_eq_true]

theorem partialTotal_fails (orders_data lineitem_data : Table) (sd ed : String) (i : Nat)
    (order bad : Row) (d k : String) (ho : orders_data.get? i = some order)
    (hd : mapFind order "O_ORDERDATE" = some d) (hin : sd ≤ d ∧ d ≤ ed)
    (hk : mapFind order "O_ORDERKEY" = some k) (hl : bad ∈ lineitem_data)
    (hlk : mapFind bad "L_ORDERKEY" = some k)
    (hbad : Unconvertible bad "L_EXTENDEDPRICE" ∨ Unconvertible bad "L_DISCOUNT") :
    ∃ e, partialTotal orders_data lineitem_data sd ed 0 orders_data.length = .error e := by
  have hi : i < orders_data.length := (List.get?_eq_some.1 ho).1
  unfold partialTotal
  apply orderLoop_fails orders_data lineitem_data sd ed i
  · intro t
    have hwin := (inWindow_iff sd ed d).2 hin
    simp only [orderStep, ho, mapAt, hd, hwin, if_true]
    exact lineitemLoop_fails order bad
      (fun t' => lineitemStep_unconvertible order bad k t' hk hlk hbad) lineitem_data t hl
  · simp [List.mem_range']
    omega

theorem partialTotal_filter (orders_data lineitem_data lineitem_data' : Table)
    (sd ed : String) (keep : Row → Bool)
    (h : ∀ l ∈ lineitem_data, keep l = false → MatchesOnlyOutside orders_data sd ed l)
    (h' : ∀ l ∈ lineitem_data', keep l = false → MatchesOnlyOutside orders_data sd ed l)
    (heq : lineitem_data.filter keep = lineitem_data'.filter keep) (start stop : Nat) :
    partialTotal orders_data lineitem_data sd ed start stop =
      partialTotal orders_data lineitem_data' sd ed start stop := by
  unfold partialTotal
  rw [orderLoop_filter orders_data lineitem_data sd ed keep h,
    orderLoop_filter orders_data lineitem_data' sd ed keep h', heq]

theorem matchesOnlyOutside_example :
    MatchesOnlyOutside windowOrders "1995-01-01" "1995-12-31" (mkLineitem "2" "n/a" "") := by
  refine ⟨"2", by decide, ?_⟩
  intro order ho d hd
  simp only [windowOrders, List.mem_cons, List.mem_singleton, List.not_mem_nil, or_false] at ho
  rcases ho with rfl | rfl
  · exact Or.inr ⟨"1", by decide, by decide⟩
  · have hd' : mapFind (mkOrder "2" "1996-06-01") "O_ORDERDATE" = some "1996-06-01" := by
      decide
    rw [hd'] at hd
    cases hd
    exact Or.inl (Or.inr ((strLe_eq_false_iff _ _).1 (by decide)))

/-! ## The entry of the region in the result map -/

theorem runThreads_label (orders_data lineitem_data : Table) (r1 r2 sd ed : String) :
    ∀ (ps : List (Nat × Nat)) (base1 base2 : Results) (v : Dbl),
      (runThreads orders_data lineitem_data r1 sd ed ps (mapSet base1 r1 v) =
          .error .terminate ∧
        runThreads orders_data lineitem_data r2 sd ed ps (mapSet base2 r2 v) =
          .error .terminate) ∨
      ∃ w, runThreads orders_data lineitem_data r1 sd ed ps (mapSet base1 r1 v) =
          .ok (mapSet base1 r1 w) ∧
        runThreads orders_data lineitem_data r2 sd ed ps (mapSet base2 r2 v) =
          .ok (mapSet base2 r2 w)
  | [], _, _, v => Or.inr ⟨v, rfl, rfl⟩
  | p :: rest, base1, base2, v => by
    simp only [runThreads, runThread_eq]
    cases partialTotal orders_data lineitem_data sd ed p.1 p.2 with
    | error e => exact Or.inl ⟨rfl, rfl⟩
    | ok t =>
      simp only [mapAdd_mapSet]
      exact runThreads_label orders_data lineitem_data r1 r2 sd ed rest base1 base2 (v + t)

theorem executeQuery5_label (r1 r2 sd ed : String) (n : Int)
    (c1 c2 orders_data lineitem_data s1 s2 na1 na2 rg1 rg2 : Table)
    (results1 results2 : Results) :
    (∃ e, executeQuery5 r1 sd ed n c1 orders_data lineitem_data s1 na1 rg1 results1 =
          .error e ∧
        executeQuery5 r2 sd ed n c2 orders_data lineitem_data s2 na2 rg2 results2 =
          .error e) ∨
      ∃ v, executeQuery5 r1 sd ed n c1 orders_data lineitem_data s1 na1 rg1 results1 =
          .ok (true, mapSet results1 r1 v) ∧
        executeQuery5 r2 sd ed n c2 orders_data lineitem_data s2 na2 rg2 results2 =
          .ok (true, mapSet results2 r2 v) := by
  unfold executeQuery5 executeQuery5Scheduled
  by_cases hz : toSizeT n = 0
  · simp only [hz, if_true]
    exact Or.inl ⟨_, rfl, rfl⟩
  · simp only [hz, if_false]
    rcases runThreads_label orders_data lineitem_data r1 r2 sd ed
      (partitions orders_data.length n) results1 results2 0 with ⟨h1, h2⟩ | ⟨w, h1, h2⟩
    · rw [h1, h2]
      exact Or.inl ⟨_, rfl, rfl⟩
    · rw [h1, h2]
      exact Or.inr ⟨w, rfl, rfl⟩

theorem executeQuery5_ok_mapSet (r sd ed : String) (n : Int)
    (c orders_data lineitem_data s na rg : Table) (results res : Results) (b : Bool)
    (h : executeQuery5 r sd ed n c orders_data lineitem_data s na rg results = .ok (b, res)) :
    b = true ∧ ∃ v, res = mapSet results r v := by
  rcases executeQuery5_label r r sd ed n c c orders_data lineitem_data s s na na rg rg results
    results with ⟨e, h1, _⟩ | ⟨v, h1, _⟩
  · rw [h1] at h; cases h
  · rw [h1] at h
    cases h
    exact ⟨rfl, v, rfl⟩

theorem executeQuery5_mapSet_start (r sd ed : String) (n : Int)
    (c orders_data lineitem_data s na rg : Table) (results : Results) (v : Dbl) :
    executeQuery5 r sd ed n c orders_data lineitem_data s na rg (mapSet results r v) =
      executeQuery5 r sd ed n c orders_data lineitem_data s na rg results := by
  unfold executeQuery5 executeQuery5Scheduled
  simp only [mapSet_mapSet]

/-! ## Non-negative revenue -/

theorem orderRevenue_nonneg (lineitem_data : Table) (order : Row)
    (h : ∀ l ∈ lineitem_data, 0 ≤ lineitemRevenue l) : 0 ≤ orderRevenue lineitem_data order := by
  unfold orderRevenue
  apply List.sum_nonneg
  intro x hx
  obtain ⟨l, hl, rfl⟩ := List.mem_map.1 hx
  exact h l (List.mem_filter.1 hl).1

theorem revenueSpec_nonneg (orders_data lineitem_data : Table) (sd ed : String)
    (start stop : Nat) (h : ∀ l ∈ lineitem_data, 0 ≤ lineitemRevenue l) :
    0 ≤ revenueSpec orders_data lineitem_data sd ed start stop := by
  unfold revenueSpec
  exact Finset.sum_nonneg (fun i _ => orderRevenue_nonneg lineitem_data _ h)

theorem lineitemRevenue_nonneg (l : Row)
    (h1 : 0 ≤ numberOf (cell l "L_EXTENDEDPRICE")) (h2 : numberOf (cell l "L_DISCOUNT") ≤ 1) :
    0 ≤ lineitemRevenue l := by
  unfold lineitemRevenue
  exact mul_nonneg h1 (by linarith)

theorem orderStep_no_match (orders_data lineitem_data : Table) (sd ed : String) (t : Dbl)
    (i : Nat) (order : Row) (d k : String) (ho : orders_data.get? i = some order)
    (hd : mapFind order "O_ORDERDATE" = some d) (hk : mapFind order "O_ORDERKEY" = some k)
    (hl : ∀ l ∈ lineitem_data, ∃ k', mapFind l "L_ORDERKEY" = some k' ∧ k' ≠ k) :
    orderStep orders_data lineitem_data sd ed t i = .ok t := by
  simp only [orderStep, ho, mapAt, hd]
  split
  · rw [lineitemLoop_filter order (fun _ => false) lineitem_data t]
    · simp [lineitemLoop]
    · intro l hl' _ t'
      obtain ⟨k', hk', hne⟩ := hl l hl'
      simp only [lineitemStep, mapAt, hk', hk, hne, if_false]
  · rfl

/-! ## The argument loop -/

theorem parseLoop_true : ∀ (l : List String) (a a' : Args), parseLoop l a = .ok (true, a') →
    (∀ x ∈ flagPositions l, x ∈ knownFlags) ∧ l.length % 2 = 0 ∧
    ("--r_name" ∉ l → a'.r_name = a.r_name) ∧
    ("--start_date" ∉ l → a'.start_date = a.start_date) ∧
    ("--end_date" ∉ l → a'.end_date = a.end_date) ∧
    ("--table_path" ∉ l → a'.table_path = a.table_path) ∧
    ("--result_path" ∉ l → a'.result_path = a.result_path) ∧
    (a'.num_threads = a.num_threads ∨ ∃ v ∈ l, stoi v = .ok a'.num_threads)
  | [], a, a', h => by
    simp only [parseLoop, Except.ok.injEq, Prod.mk.injEq, true_and] at h
    subst h
    simp [flagPositions]
  | [_], a, a', h => by
    simp [parseLoop] at h
  | arg :: value :: rest, a, a', h => by
    have ih := parseLoop_true rest
    unfold parseLoop at h
    have hlen : (arg :: value :: rest).length % 2 = rest.length % 2 := by
      simp only [List.length_cons]; omega
    simp only [flagPositions, List.mem_cons, forall_eq_or_imp, hlen, not_or]
    split at h
    · rename_i hf
      obtain ⟨i1, i2, i3, i4, i5, i6, i7, i8⟩ := ih _ _ h
      refine ⟨⟨by rw [hf]; decide, i1⟩, i2, fun hh => absurd hf.symm hh.1,
        fun hh => i4 hh.2.2, fun hh => i5 hh.2.2, fun hh => i6 hh.2.2, fun hh => i7 hh.2.2, ?_⟩
      rcases i8 with h8 | ⟨v, hv, h8⟩
      · exact Or.inl h8
      · exact Or.inr ⟨v, Or.inr (Or.inr hv), h8⟩
    · split at h
      · rename_i hf
        obtain ⟨i1, i2, i3, i4, i5, i6, i7, i8⟩ := ih _ _ h
        refine ⟨⟨by rw [hf]; decide, i1⟩, i2, fun hh => i3 hh.2.2,
          fun hh => absurd hf.symm hh.1, fun hh => i5 hh.2.2, fun hh => i6 hh.2.2,
          fun hh => i7 hh.2.2, ?_⟩
        rcases i8 with h8 | ⟨v, hv, h8⟩
        · exact Or.inl h8
        · exact Or.inr ⟨v, Or.inr (Or.inr hv), h8⟩
      · split at h
        · rename_i hf
          obtain ⟨i1, i2, i3, i4, i5, i6, i7, i8⟩ := ih _ _ h
          refine ⟨⟨by rw [hf]; decide, i1⟩, i2, fun hh => i3 hh.2.2, fun hh => i4 hh.2.2,
            fun hh => absurd hf.symm hh.1, fun hh => i6 hh.2.2, fun hh => i7 hh.2.2, ?_⟩
          rcases i8 with h8 | ⟨v, hv, h8⟩
          · exact Or.inl h8
          · exact Or.inr ⟨v, Or.inr (Or.inr hv), h8⟩
        · split at h
          · rename_i hf
            cases hs : stoi value with
            | error e => rw [hs] at h; cases h
            | ok n =>
              rw [hs] at h
              obtain ⟨i1, i2, i3, i4, i5, i6, i7, i8⟩ := ih _ _ h
              refine ⟨⟨by rw [hf]; decide, i1⟩, i2, fun hh => i3 hh.2.2, fun hh => i4 hh.2.2,
                fun hh => i5 hh.2.2, fun hh => i6 hh.2.2, fun hh => i7 hh.2.2, ?_⟩
              rcases i8 with h8 | ⟨v, hv, h8⟩
              · exact Or.inr ⟨value, Or.inr (Or.inl rfl), by rw [hs, h8]⟩
              · exact Or.inr ⟨v, Or.inr (Or.inr hv), h8⟩
          · split at h
            · rename_i hf
              obtain ⟨i1, i2, i3, i4, i5, i6, i7, i8⟩ := ih _ _ h
              refine ⟨⟨by rw [hf]; decide, i1⟩, i2, fun hh => i3 hh.2.2, fun hh => i4 hh.2.2,
                fun hh => i5 hh.2.2, fun hh => absurd hf.symm hh.1, fun hh => i7 hh.2.2, ?_⟩
              rcases i8 with h8 | ⟨v, hv, h8⟩
              · exact Or.inl h8
              · exact Or.inr ⟨v, Or.inr (Or.inr hv), h8⟩
            · split at h
              · rename_i hf
                obtain ⟨i1, i2, i3, i4, i5, i6, i7, i8⟩ := ih _ _ h
                refine ⟨⟨by rw [hf]; decide, i1⟩, i2, fun hh => i3 hh.2.2,
                  fun hh => i4 hh.2.2, fun hh => i5 hh.2.2, fun hh => i6 hh.2.2,
                  fun hh => absurd hf.symm hh.1, ?_⟩
                rcases i8 with h8 | ⟨v, hv, h8⟩
                · exact Or.inl h8
                · exact Or.inr ⟨v, Or.inr (Or.inr hv), h8⟩
              · simp at h

theorem parseLoop_returns : ∀ (l : List String) (a : Args), "--threads" ∉ l →
    ∃ b a', parseLoop l a = .ok (b, a')
  | [], a, _ => ⟨true, a, rfl⟩
  | [_], a, _ => ⟨false, a, rfl⟩
  | arg :: value :: rest, a, h => by
    have hrest : "--threads" ∉ rest := fun hh =>
      h (List.mem_cons_of_mem _ (List.mem_cons_of_mem _ hh))
    have harg : ¬ (arg = "--threads") := fun hh => h (by rw [hh]; exact List.mem_cons_self _ _)
    have ih := fun a'' => parseLoop_returns rest a'' hrest
    unfold parseLoop
    simp only [harg, if_false]
    split
    · exact ih _
    · split
      · exact ih _
      · split
        · exact ih _
        · split
          · exact ih _
          · split
            · exact ih _
            · exact ⟨false, a, rfl⟩

theorem parseArgs_true (argv : List String) (a : Args) (h : parseArgs argv = .ok (true, a)) :
    parseLoop argv.tail defaultArgs = .ok (true, a) ∧ a.r_name ≠ "" ∧ a.start_date ≠ "" ∧
      a.end_date ≠ "" ∧ a.table_path ≠ "" ∧ a.result_path ≠ "" := by
  unfold parseArgs at h
  split at h
  · simp at h
  · split at h
    · cases h
    · simp at h
    · rename_i a' hl
      split at h
      · simp at h
      · rename_i hne
        simp only [Except.ok.injEq, Prod.mk.injEq, true_and] at h
        subst h
        simp only [not_or] at hne
        exact ⟨hl, hne.1, hne.2.1, hne.2.2.1, hne.2.2.2.1, hne.2.2.2.2⟩

theorem parseArgs_returns (argv : List String) (h : "--threads" ∉ argv.tail) :
    ∃ b a, parseArgs argv = .ok (b, a) := by
  unfold parseArgs
  split
  · exact ⟨_, _, rfl⟩
  · obtain ⟨b, a', hl⟩ := parseLoop_returns argv.tail defaultArgs h
    rw [hl]
    cases b
    · exact ⟨_, _, rfl⟩
    · simp only
      split
      · exact ⟨_, _, rfl⟩
      · exact ⟨_, _, rfl⟩

theorem parseLoop_r_name (value : String) (rest : List String) (a : Args) :
    parseLoop ("--r_name" :: value :: rest) a = parseLoop rest { a with r_name := value } := by
  rw [parseLoop]
  exact if_pos rfl

theorem parseLoop_start_date (value : String) (rest : List String) (a : Args) :
    parseLoop ("--start_date" :: value :: rest) a =
      parseLoop rest { a with start_date := value } := by
  rw [parseLoop, if_neg (by decide)]
  exact if_pos rfl

theorem parseLoop_end_date (value : String) (rest : List String) (a : Args) :
    parseLoop ("--end_date" :: value :: rest) a =
      parseLoop rest { a with end_date := value } := by
  rw [parseLoop, if_neg (by decide), if_neg (by decide)]
  exact if_pos rfl

theorem parseLoop_threads (value : String) (rest : List String) (a : Args) :
    parseLoop ("--threads" :: value :: rest) a =
      match stoi value with
      | .error e => .error e
      | .ok n => parseLoop rest { a with num_threads := n } := by
  rw [parseLoop, if_neg (by decide), if_neg (by decide), if_neg (by decide)]
  exact if_pos rfl

theorem parseLoop_table_path (value : String) (rest : List String) (a : Args) :
    parseLoop ("--table_path" :: value :: rest) a =
      parseLoop rest { a with table_path := value } := by
  rw [parseLoop, if_neg (by decide), if_neg (by decide), if_neg (by decide),
    if_neg (by decide)]
  exact if_pos rfl

theorem parseLoop_result_path (value : String) (rest : List String) (a : Args) :
    parseLoop ("--result_path" :: value :: rest) a =
      parseLoop rest { a with result_path := value } := by
  rw [parseLoop, if_neg (by decide), if_neg (by decide), if_neg (by decide),
    if_neg (by decide), if_neg (by decide)]
  exact if_pos rfl

/-! ## Rows built by the loader -/

theorem mapFind_isSome_mapSet {α : Type} (m : StrMap α) (k h : String) (v : α) :
    (mapFind (mapSet m k v) h).isSome = true ↔ h = k ∨ (mapFind m h).isSome = true := by
  by_cases hk : h = k
  · subst hk
    simp [mapFind_mapSet_self]
  · simp [mapFind_mapSet_other m k h v hk, hk]

theorem fillRow_keys (headers : List String) :
    ∀ (vals : List String) (idx : Nat) (row : Row) (h : String),
      (mapFind (fillRow headers vals idx row) h).isSome = true ↔
        (mapFind row h).isSome = true ∨
          ∃ j, j < vals.length ∧ headers.get? (idx + j) = some h
  | [], idx, row, h => by simp [fillRow]
  | v :: rest, idx, row, h => by
    have ih := fillRow_keys headers rest (idx + 1)
    unfold fillRow
    cases hh : headers.get? idx with
    | none =>
      simp only [ih]
      constructor
      · rintro (h1 | ⟨j, hj, hget⟩)
        · exact Or.inl h1
        · exact Or.inr ⟨j + 1, by simp only [List.length_cons]; omega, by
            rw [← hget]; congr 1; omega⟩
      · rintro (h1 | ⟨j, hj, hget⟩)
        · exact Or.inl h1
        · cases j with
          | zero => rw [Nat.add_zero, hh] at hget; cases hget
          | succ j =>
            exact Or.inr ⟨j, by simp only [List.length_cons] at hj; omega, by
              rw [← hget]; congr 1; omega⟩
    | some header =>
      simp only [ih, mapFind_isSome_mapSet]
      constructor
      · rintro ((h1 | h1) | ⟨j, hj, hget⟩)
        · exact Or.inr ⟨0, by simp, by rw [Nat.add_zero, hh, h1]⟩
        · exact Or.inl h1
        · exact Or.inr ⟨j + 1, by simp only [List.length_cons]; omega, by
            rw [← hget]; congr 1; omega⟩
      · rintro (h1 | ⟨j, hj, hget⟩)
        · exact Or.inl (Or.inr h1)
        · cases j with
          | zero =>
            rw [Nat.add_zero, hh] at hget
            cases hget
            exact Or.inl (Or.inl rfl)
          | succ j =>
            exact Or.inr ⟨j, by simp only [List.length_cons] at hj; omega, by
              rw [← hget]; congr 1; omega⟩

theorem fillRow_other (headers : List String) :
    ∀ (vals : List String) (idx : Nat) (row : Row) (h : String),
      (∀ j, j < vals.length → headers.get? (idx + j) ≠ some h) →
      mapFind (fillRow headers vals idx row) h = mapFind row h
  | [], _, _, _, _ => rfl
  | v :: rest, idx, row, h, hno => by
    have hrest : ∀ j, j < rest.length → headers.get? (idx + 1 + j) ≠ some h := by
      intro j hj
      have := hno (j + 1) (by simp only [List.length_cons]; omega)
      rw [show idx + 1 + j = idx + (j + 1) by omega]
      exact this
    have h0 := hno 0 (by simp)
    rw [Nat.add_zero] at h0
    unfold fillRow
    cases hh : headers.get? idx with
    | none => exact fillRow_other headers rest (idx + 1) row h hrest
    | some header =>
      simp only
      rw [fillRow_other headers rest (idx + 1) _ h hrest]
      apply mapFind_mapSet_other
      intro heq
      rw [hh, heq] at h0
      exact h0 rfl

theorem fillRow_hit (headers : List String) (hnd : headers.Nodup) :
    ∀ (vals : List String) (idx : Nat) (row : Row) (j : Nat) (h f : String),
      headers.get? (idx + j) = some h → vals.get? j = some f →
      mapFind (fillRow headers vals idx row) h = some f
  | [], _, _, j, _, _, _, hv => by simp at hv
  | v :: rest, idx, row, 0, h, f, hh, hv => by
    rw [Nat.add_zero] at hh
    simp only [List.get?_cons_zero, Option.some.injEq] at hv
    subst hv
    unfold fillRow
    rw [hh]
    simp only
    rw [fillRow_other headers rest (idx + 1) _ h]
    · exact mapFind_mapSet_self _ _ _
    · intro j _ hj
      have hlt1 : idx < headers.length := (List.get?_eq_some.1 hh).1
      have hlt2 : idx + 1 + j < headers.length := (List.get?_eq_some.1 hj).1
      have e1 : headers.get ⟨idx, hlt1⟩ = h := (List.get?_eq_some.1 hh).2
      have e2 : headers.get ⟨idx + 1 + j, hlt2⟩ = h := (List.get?_eq_some.1 hj).2
      have := (List.Nodup.get_inj_iff hnd).1 (e1.trans e2.symm)
      simp only [Fin.mk.injEq] at this
      omega
  | v :: rest, idx, row, j + 1, h, f, hh, hv => by
    simp only [List.get?_cons_succ] at hv
    have hh' : headers.get? (idx + 1 + j) = some h := by
      rw [show idx + 1 + j = idx + (j + 1) by omega]
      exact hh
    unfold fillRow
    cases headers.get? idx with
    | none => exact fillRow_hit headers hnd rest (idx + 1) row j h f hh' hv
    | some header => exact fillRow_hit headers hnd rest (idx + 1) _ j h f hh' hv

theorem rowOfLine_isSome (headers : List String) (line h : String) :
    (mapFind (rowOfLine headers line) h).isSome = true ↔
      ∃ i, i < (fieldsOf line).length ∧ headers.get? i = some h := by
  unfold rowOfLine fieldsOf
  rw [fillRow_keys]
  simp [mapFind]

theorem orders_headers_index (i : Nat) :
    (orders_headers.get? i = some "O_ORDERKEY" ↔ i = 0) ∧
      (orders_headers.get? i = some "O_ORDERDATE" ↔ i = 4) := by
  by_cases hi : i < 9
  · revert i
    decide
  · have hn : orders_headers.get? i = none := List.get?_eq_none.2 (by
      simp only [orders_headers, List.length_cons, List.length_nil]; omega)
    rw [hn]
    constructor <;> constructor <;> intro h
    · cases h
    · omega
    · cases h
    · omega

theorem lineitem_headers_index (i : Nat) :
    (lineitem_headers.get? i = some "L_ORDERKEY" ↔ i = 0) ∧
      (lineitem_headers.get? i = some "L_EXTENDEDPRICE" ↔ i = 5) ∧
      (lineitem_headers.get? i = some "L_DISCOUNT" ↔ i = 6) := by
  by_cases hi : i < 16
  · revert i
    decide
  · have hn : lineitem_headers.get? i = none := List.get?_eq_none.2 (by
      simp only [lineitem_headers, List.length_cons, List.length_nil]; omega)
    rw [hn]
    simp only [reduceCtorEq, false_iff]
    omega

/-! # The claims -/

/-- C3. For `1 <= num_threads` the ranges handed to the workers are `num_threads` in number,
range `i` is `[i * chunk_size, i * chunk_size + chunk_size)` and the last one ends at
`total_orders`; each satisfies `start <= end <= total_orders`; consecutive ranges are
contiguous; two different ranges share no index; an index is below `total_orders` exactly when
some range holds it; the sizes add up to `total_orders`. -/
theorem partitions_cover (total_orders : Nat) (num_threads : Int) (h1 : 1 ≤ num_threads)
    (h2 : num_threads < 2 ^ 31) (ht : total_orders < 2 ^ 64) :
    (partitions total_orders num_threads).length = num_threads.toNat ∧
    (∀ i, i < num_threads.toNat →
      (partitions total_orders num_threads).get? i =
        some (i * (total_orders / num_threads.toNat),
          if i + 1 = num_threads.toNat then total_orders
          else i * (total_orders / num_threads.toNat) + total_orders / num_threads.toNat)) ∧
    (∀ p ∈ partitions total_orders num_threads, p.1 ≤ p.2 ∧ p.2 ≤ total_orders) ∧
    (∀ i p q, (partitions total_orders num_threads).get? i = some p →
      (partitions total_orders num_threads).get? (i + 1) = some q → p.2 = q.1) ∧
    (∀ i j p q x, i ≠ j → (partitions total_orders num_threads).get? i = some p →
      (partitions total_orders num_threads).get? j = some q →
      p.1 ≤ x ∧ x < p.2 → ¬ (q.1 ≤ x ∧ x < q.2)) ∧
    (∀ x, x < total_orders ↔
      ∃ p ∈ partitions total_orders num_threads, p.1 ≤ x ∧ x < p.2) ∧
    ((partitions total_orders num_threads).map (fun p => p.2 - p.1)).sum = total_orders := by
  obtain ⟨n, rfl⟩ := Int.eq_ofNat_of_zero_le (Int.le_trans (by decide) h1)
  have h1' : 1 ≤ n := by omega
  have h2' : n < 2 ^ 31 := by omega
  simp only [Int.toNat_ofNat]
  refine ⟨partitions_length _ n, fun i hi => partitions_get? total_orders n i h2' ht hi,
    partitions_mem_bounds total_orders n h2' ht, ?_, ?_, ?_, ?_⟩
  · intro i p q hp hq
    have hj := partitions_get?_lt total_orders n (i + 1) q hq
    rw [partitions_get? total_orders n i h2' ht (by omega)] at hp
    rw [partitions_get? total_orders n (i + 1) h2' ht hj] at hq
    cases hp; cases hq
    have hne : ¬ (i + 1 = n) := by omega
    simp only [hne, if_false]
    ring
  · intro i j p q x hij hp hq hx hx'
    have hi := partitions_get?_lt total_orders n i p hp
    have hj := partitions_get?_lt total_orders n j q hq
    rw [partitions_get? total_orders n i h2' ht hi] at hp
    rw [partitions_get? total_orders n j h2' ht hj] at hq
    cases hp; cases hq
    simp only at hx hx'
    rcases Nat.lt_or_gt_of_ne hij with hlt | hgt
    · have := range_disjoint total_orders n i j hlt hj
      omega
    · have := range_disjoint total_orders n j i hgt hi
      omega
  · intro x
    constructor
    · intro hx
      obtain ⟨i, hi, hx1, hx2⟩ := range_cover total_orders n x h1' hx
      exact ⟨_, List.get?_mem (partitions_get? total_orders n i h2' ht hi), hx1, hx2⟩
    · rintro ⟨p, hp, _, hx2⟩
      exact Nat.lt_of_lt_of_le hx2 (partitions_mem_bounds total_orders n h2' ht p hp).2
  · rw [chained_sum _ 0 total_orders (partitions_chained total_orders n h1' h2' ht)]
    rfl

/-- C3 for ten orders and three threads. -/
theorem partitions_cover_witness :
    partitions 10 3 = [(0, 3), (3, 6), (6, 10)] ∧
      ((partitions 10 3).map (fun p => p.2 - p.1)).sum = 10 :=
  ⟨by decide, (partitions_cover 10 3 (by decide) (by decide) (by decide)).2.2.2.2.2.2⟩

/-- C4. With `k >= 1` threads `executeQuery5` has the same outcome (returned flag and result
map, or termination) as with one thread, and so has every run in which the `k` workers commit
in another order. -/
theorem executeQuery5_thread_count_independent (r_name start_date end_date : String)
    (k : Int)
    (customer_data orders_data lineitem_data supplier_data nation_data region_data : Table)
    (results : Results) (h1 : 1 ≤ k) (h2 : k < 2 ^ 31) (h3 : orders_data.length < 2 ^ 64) :
    executeQuery5 r_name start_date end_date k customer_data orders_data lineitem_data
        supplier_data nation_data region_data results =
      executeQuery5 r_name start_date end_date 1 customer_data orders_data lineitem_data
        supplier_data nation_data region_data results ∧
    ∀ schedule : List (Nat × Nat), schedule.Perm (partitions orders_data.length k) →
      executeQuery5Scheduled schedule r_name start_date end_date k customer_data orders_data
          lineitem_data supplier_data nation_data region_data results =
        executeQuery5 r_name start_date end_date 1 customer_data orders_data lineitem_data
          supplier_data nation_data region_data results := by
  obtain ⟨n, rfl⟩ := Int.eq_ofNat_of_zero_le (Int.le_trans (by decide) h1)
  have h1' : 1 ≤ n := by omega
  have h2' : n < 2 ^ 31 := by omega
  have hk := executeQuery5_eq r_name start_date end_date n customer_data orders_data
    lineitem_data supplier_data nation_data region_data results h1' h2' h3
  have hone := executeQuery5_eq r_name start_date end_date 1 customer_data orders_data
    lineitem_data supplier_data nation_data region_data results (by decide) (by decide) h3
  have hcast : ((1 : Nat) : Int) = 1 := rfl
  rw [hcast] at hone
  refine ⟨hk.trans hone.symm, ?_⟩
  intro schedule hperm
  rw [← hk.trans hone.symm]
  unfold executeQuery5 executeQuery5Scheduled
  simp only [runThreads_perm orders_data lineitem_data r_name start_date end_date hperm]

/-- C4 for four orders worth `25` each and four threads, one order for each worker: the total
is `100`, also when the workers commit in another order. -/
theorem executeQuery5_thread_count_independent_witness :
    (fourOrders.map (orderRevenue fourLineitems) = [25, 25, 25, 25] ∧
      partitions fourOrders.length 4 = [(0, 1), (1, 2), (2, 3), (3, 4)]) ∧
    (executeQuery5 "ASIA" "1995-01-01" "1995-12-31" 4 [] fourOrders fourLineitems [] [] [] [] =
        .ok (true, [("ASIA", Dbl.fin 100)]) ∧
      executeQuery5 "ASIA" "1995-01-01" "1995-12-31" 1 [] fourOrders fourLineitems [] [] [] [] =
        .ok (true, [("ASIA", Dbl.fin 100)]) ∧
      executeQuery5Scheduled [(2, 3), (0, 1), (3, 4), (1, 2)] "ASIA" "1995-01-01" "1995-12-31"
          4 [] fourOrders fourLineitems [] [] [] [] = .ok (true, [("ASIA", Dbl.fin 100)])) :=
  have h := executeQuery5_thread_count_independent "ASIA" "1995-01-01" "1995-12-31" 4 []
    fourOrders fourLineitems [] [] [] [] (by decide) (by decide) (by decide)
  have e : executeQuery5 "ASIA" "1995-01-01" "1995-12-31" 4 [] fourOrders fourLineitems [] []
      [] [] = .ok (true, [("ASIA", Dbl.fin 100)]) := by decide!
  ⟨⟨by decide!, by decide⟩, e, h.1.symm.trans e,
    (h.2 [(2, 3), (0, 1), (3, 4), (1, 2)] (by decide)).trans (h.1.symm.trans e)⟩

/-- C5 fails as stated: with `num_threads = -1` the chunk size is computed (it is `0`) and
`executeQuery5` returns `true`. -/
theorem executeQuery5_negative_threads_counterexample :
    (-1 : Int) ≤ 0 ∧ scenarioOrders.length / toSizeT (-1) = 0 ∧
      executeQuery5 "ASIA" "1995-01-01" "1995-12-31" (-1) [] scenarioOrders scenarioLineitem []
        [] [] [] = .ok (true, [("ASIA", Dbl.fin 0)]) :=
  ⟨by decide, by decide, by decide!⟩

/-- C5, amended. For a negative `num_threads` (an `int`) nothing is validated: no range is
produced, so no worker is spawned, and `executeQuery5` returns `true` with
`results[r_name] = 0`. -/
theorem executeQuery5_negative_threads (r_name start_date end_date : String)
    (num_threads : Int)
    (customer_data orders_data lineitem_data supplier_data nation_data region_data : Table)
    (results : Results) (h1 : num_threads < 0) (h2 : -2 ^ 31 ≤ num_threads) :
    partitions orders_data.length num_threads = [] ∧
      executeQuery5 r_name start_date end_date num_threads customer_data orders_data
          lineitem_data supplier_data nation_data region_data results =
        .ok (true, mapSet results r_name 0) ∧
      mapFind (mapSet results r_name 0) r_name = some 0 := by
  have hp : partitions orders_data.length num_threads = [] := by
    have : num_threads.toNat = 0 := Int.toNat_eq_zero.2 (Int.le_of_lt h1)
    simp [partitions, this]
  have hz : toSizeT num_threads ≠ 0 := by
    unfold toSizeT
    omega
  refine ⟨hp, ?_, mapFind_mapSet_self _ _ _⟩
  unfold executeQuery5 executeQuery5Scheduled
  simp only [hz, if_false, hp, runThreads]

/-- C5 amended, at `num_threads = -2` on a result map that already has entries. -/
theorem executeQuery5_negative_threads_witness :
    executeQuery5 "ASIA" "1995-01-01" "1995-12-31" (-2) [] scenarioOrders scenarioLineitem []
        [] [] [("ASIA", Dbl.fin 5), ("EUROPE", Dbl.fin 7)] =
      .ok (true, mapSet [("ASIA", Dbl.fin 5), ("EUROPE", Dbl.fin 7)] "ASIA" 0) ∧
    mapSet [("ASIA", Dbl.fin 5), ("EUROPE", Dbl.fin 7)] "ASIA" 0 =
      [("ASIA", Dbl.fin 0), ("EUROPE", Dbl.fin 7)] :=
  ⟨(executeQuery5_negative_threads "ASIA" "1995-01-01" "1995-12-31" (-2) [] scenarioOrders
    scenarioLineitem [] [] [] [("ASIA", Dbl.fin 5), ("EUROPE", Dbl.fin 7)] (by decide)
    (by decide)).2.1,
    by decide!⟩

/-- C6 fails as stated: a price `100.00abc` is converted to `100` and `executeQuery5` returns
`true` with the total `90`. -/
theorem executeQuery5_trailing_garbage_counterexample :
    stod "100.00abc" = .ok (Dbl.fin 100) ∧
      executeQuery5 "ASIA" "1995-01-01" "1995-12-31" 1 [] scenarioOrders garbageLineitem [] []
        [] [] = .ok (true, [("ASIA", Dbl.fin 90)]) :=
  ⟨by decide!, by decide!⟩

/-- C6, amended. If some order inside the date window has a lineitem row with its order key
whose price or discount is absent or has no numeric prefix that `std::stod` converts, then
`executeQuery5` with `num_threads >= 1` does not return: the exception leaves the worker and
the process is terminated. -/
theorem executeQuery5_unconvertible_terminates (r_name start_date end_date : String)
    (num_threads : Int)
    (customer_data orders_data lineitem_data supplier_data nation_data region_data : Table)
    (results : Results) (i : Nat) (order lineitem : Row) (d k : String)
    (h1 : 1 ≤ num_threads) (h2 : num_threads < 2 ^ 31) (h3 : orders_data.length < 2 ^ 64)
    (ho : orders_data.get? i = some order) (hd : mapFind order "O_ORDERDATE" = some d)
    (hin : start_date ≤ d ∧ d ≤ end_date) (hk : mapFind order "O_ORDERKEY" = some k)
    (hl : lineitem ∈ lineitem_data) (hlk : mapFind lineitem "L_ORDERKEY" = some k)
    (hbad : Unconvertible lineitem "L_EXTENDEDPRICE" ∨ Unconvertible lineitem "L_DISCOUNT") :
    executeQuery5 r_name start_date end_date num_threads customer_data orders_data
        lineitem_data supplier_data nation_data region_data results = .error .terminate := by
  obtain ⟨n, rfl⟩ := Int.eq_ofNat_of_zero_le (Int.le_trans (by decide) h1)
  rw [executeQuery5_eq r_name start_date end_date n customer_data orders_data lineitem_data
    supplier_data nation_data region_data results (by omega) (by omega) h3]
  obtain ⟨e, he⟩ := partialTotal_fails orders_data lineitem_data start_date end_date i order
    lineitem d k ho hd hin hk hl hlk hbad
  rw [he]

/-- C6 amended, at the scenario with the price `abc`. -/
theorem executeQuery5_unconvertible_terminates_witness :
    stod "abc" = .error .invalid_argument ∧
      executeQuery5 "ASIA" "1995-01-01" "1995-12-31" 2 [] scenarioOrders malformedLineitem []
        [] [] [] = .error .terminate :=
  ⟨by decide, executeQuery5_unconvertible_terminates "ASIA" "1995-01-01" "1995-12-31" 2 []
    scenarioOrders malformedLineitem [] [] [] [] 0 (mkOrder "1" "1995-06-01")
    (mkLineitem "1" "abc" "0.10") "1995-06-01" "1" (by decide) (by decide) (by decide) rfl
    (by decide) ((inWindow_iff _ _ _).1 (by decide)) (by decide) (by decide) (by decide)
    (Or.inl (fun text h => by
      have ht : text = "abc" := by
        have h' : mapFind (mkLineitem "1" "abc" "0.10") "L_EXTENDEDPRICE" = some "abc" := by
          decide
        rw [h'] at h
        exact (Option.some.inj h).symm
      subst ht
      decide))⟩

/-- C7. For `1 <= num_threads` every range but the last has `total_orders / num_threads`
elements and the last, which ends at `total_orders`, has
`total_orders / num_threads + total_orders % num_threads`; when `num_threads > total_orders`
every range but the last is empty; and `processData` on an empty range returns normally, adds
`0` to `results[r_name]` and leaves the other entries alone. -/
theorem partition_sizes (total_orders : Nat) (num_threads : Int) (h1 : 1 ≤ num_threads)
    (h2 : num_threads < 2 ^ 31) (ht : total_orders < 2 ^ 64) :
    (∀ i, i + 1 < num_threads.toNat →
      ∃ p, (partitions total_orders num_threads).get? i = some p ∧
        p.2 - p.1 = total_orders / num_threads.toNat) ∧
    (∃ p, (partitions total_orders num_threads).get? (num_threads.toNat - 1) = some p ∧
      p.2 = total_orders ∧
      p.2 - p.1 = total_orders / num_threads.toNat + total_orders % num_threads.toNat) ∧
    (total_orders < num_threads.toNat → ∀ i, i + 1 < num_threads.toNat →
      ∃ p, (partitions total_orders num_threads).get? i = some p ∧ p.1 = p.2) ∧
    (∀ (orders_data lineitem_data : Table) (r_name start_date end_date : String)
      (results : Results) (start : Nat),
      processData orders_data lineitem_data r_name start_date end_date results start start =
          .ok (mapAdd results r_name 0) ∧
        mapFind (mapAdd results r_name 0) r_name = some ((mapFind results r_name).getD 0) ∧
        ∀ k, k ≠ r_name → mapFind (mapAdd results r_name 0) k = mapFind results k) := by
  obtain ⟨n, rfl⟩ := Int.eq_ofNat_of_zero_le (Int.le_trans (by decide) h1)
  have h1' : 1 ≤ n := by omega
  have h2' : n < 2 ^ 31 := by omega
  simp only [Int.toNat_ofNat]
  refine ⟨?_, ?_, ?_, ?_⟩
  · intro i hi
    refine ⟨_, partitions_get? total_orders n i h2' ht (by omega), ?_⟩
    have hne : ¬ (i + 1 = n) := by omega
    simp only [hne, if_false]
    exact Nat.add_sub_cancel_left _ _
  · refine ⟨_, partitions_get? total_orders n (n - 1) h2' ht (by omega), ?_, ?_⟩
    · have : n - 1 + 1 = n := by omega
      simp only [this, if_true]
    · have hn : n - 1 + 1 = n := by omega
      simp only [hn, if_true]
      have hdm := Nat.div_add_mod total_orders n
      have hmul : n * (total_orders / n) = (n - 1) * (total_orders / n) + total_orders / n := by
        have : (n - 1 + 1) * (total_orders / n) =
            (n - 1) * (total_orders / n) + total_orders / n := by ring
        rw [hn] at this
        exact this
      rw [hmul] at hdm
      generalize (n - 1) * (total_orders / n) = a at *
      generalize total_orders / n = c at *
      generalize total_orders % n = d at *
      omega
  · intro hlt i hi
    refine ⟨_, partitions_get? total_orders n i h2' ht (by omega), ?_⟩
    have hne : ¬ (i + 1 = n) := by omega
    have hc : total_orders / n = 0 := Nat.div_eq_of_lt hlt
    simp only [hne, if_false, hc, Nat.mul_zero, Nat.add_zero]
  · intro orders_data lineitem_data r_name start_date end_date results start
    refine ⟨?_, ?_, fun k hk => mapFind_mapAdd_other _ _ _ _ hk⟩
    · unfold processData
      rw [partialTotal_empty]
    · rw [mapFind_mapAdd_self, add_zero]

/-- C7 for two orders and five threads, and for the last of three ranges over ten orders. -/
theorem partition_sizes_witness :
    partitions 2 5 = [(0, 0), (0, 0), (0, 0), (0, 0), (0, 2)] ∧
      ∃ p, (partitions 10 3).get? (3 - 1) = some p ∧ p.2 = 10 ∧ p.2 - p.1 = 10 / 3 + 10 % 3 :=
  ⟨by decide, (partition_sizes 10 3 (by decide) (by decide) (by decide)).2.1⟩

/-- C8. An order whose date is below `start_date` or above `end_date` leaves the total
unchanged whatever the lineitem table is; and two lineitem tables that differ only in rows
matching only such orders (rows altered, removed or added) give `processData` and
`executeQuery5` the same outcome, failures included, so no price or discount of such a row is
read. -/
theorem out_of_window_exclusion (orders_data : Table) (start_date end_date : String) :
    (∀ (lineitem_data : Table) (total_revenue : Dbl) (i : Nat) (order : Row) (d : String),
      orders_data.get? i = some order → mapFind order "O_ORDERDATE" = some d →
      (d < start_date ∨ end_date < d) →
      orderStep orders_data lineitem_data start_date end_date total_revenue i =
        .ok total_revenue) ∧
    (∀ (keep : Row → Bool) (lineitem_data lineitem_data' : Table),
      (∀ l ∈ lineitem_data, keep l = false →
        MatchesOnlyOutside orders_data start_date end_date l) →
      (∀ l ∈ lineitem_data', keep l = false →
        MatchesOnlyOutside orders_data start_date end_date l) →
      lineitem_data.filter keep = lineitem_data'.filter keep →
      (∀ (r_name : String) (results : Results) (start stop : Nat),
        processData orders_data lineitem_data r_name start_date end_date results start stop =
          processData orders_data lineitem_data' r_name start_date end_date results start
            stop) ∧
      (∀ (r_name : String) (num_threads : Int)
        (customer_data supplier_data nation_data region_data : Table) (results : Results),
        executeQuery5 r_name start_date end_date num_threads customer_data orders_data
            lineitem_data supplier_data nation_data region_data results =
          executeQuery5 r_name start_date end_date num_threads customer_data orders_data
            lineitem_data' supplier_data nation_data region_data results)) := by
  refine ⟨fun lineitem_data t i order d ho hd hout =>
    orderStep_outside orders_data lineitem_data start_date end_date t i order d ho hd hout, ?_⟩
  intro keep lineitem_data lineitem_data' h h' heq
  have hpt := partialTotal_filter orders_data lineitem_data lineitem_data' start_date end_date
    keep h h' heq
  constructor
  · intro r_name results start stop
    unfold processData
    rw [hpt]
  · intro r_name num_threads customer_data supplier_data nation_data region_data results
    unfold executeQuery5 executeQuery5Scheduled
    simp only [runThreads_congr orders_data lineitem_data lineitem_data' r_name start_date
      end_date hpt]

/-- C8 for an order of 1996 against the window of 1995: removing its lineitem row, whose
price and discount are no numbers, changes nothing. -/
theorem out_of_window_exclusion_witness :
    processData windowOrders windowLineitem "ASIA" "1995-01-01" "1995-12-31" [] 0 2 =
        processData windowOrders scenarioLineitem "ASIA" "1995-01-01" "1995-12-31" [] 0 2 ∧
      processData windowOrders windowLineitem "ASIA" "1995-01-01" "1995-12-31" [] 0 2 =
        .ok [("ASIA", Dbl.fin 90)] ∧
      orderStep windowOrders windowLineitem "1995-01-01" "1995-12-31" (Dbl.fin 7) 1 =
        .ok (Dbl.fin 7) :=
  ⟨((out_of_window_exclusion windowOrders "1995-01-01" "1995-12-31").2 keepKeyOne
      windowLineitem scenarioLineitem
      (fun l hl hk => by
        simp only [windowLineitem, List.mem_cons, List.not_mem_nil, or_false] at hl
        rcases hl with rfl | rfl
        · exact absurd hk (by decide)
        · exact matchesOnlyOutside_example)
      (fun l hl hk => by
        simp only [scenarioLineitem, List.mem_cons, List.not_mem_nil, or_false] at hl
        subst hl
        exact absurd hk (by decide))
      (by decide)).1 "ASIA" [] 0 2,
    by decide!,
    (out_of_window_exclusion windowOrders "1995-01-01" "1995-12-31").1 windowLineitem
      (Dbl.fin 7) 1
      (mkOrder "2" "1996-06-01") "1996-06-01" rfl (by decide)
      (Or.inr ((strLe_eq_false_iff _ _).1 (by decide)))⟩

/-- C10 fails as stated: with `start_date > end_date` and an orders row without
`O_ORDERDATE`, `executeQuery5` does not return. -/
theorem executeQuery5_empty_window_counterexample :
    ("1995-01-01" : String) < "1995-12-31" ∧
      executeQuery5 "ASIA" "1995-12-31" "1995-01-01" 1 [] [[]] scenarioLineitem [] [] [] [] =
        .error .terminate :=
  ⟨(strLe_eq_false_iff _ _).1 (by decide), by decide⟩

/-- C10, amended. If `start_date > end_date`, `num_threads >= 1` and every orders row carries
`O_ORDERDATE`, then `executeQuery5` returns `true` with `results[r_name]` exactly `0`, whatever
the lineitem table is. -/
theorem executeQuery5_empty_window (r_name start_date end_date : String) (num_threads : Int)
    (customer_data orders_data lineitem_data supplier_data nation_data region_data : Table)
    (results : Results) (h1 : 1 ≤ num_threads) (h2 : num_threads < 2 ^ 31)
    (h3 : orders_data.length < 2 ^ 64) (hlt : end_date < start_date)
    (hdate : ∀ order ∈ orders_data, (mapFind order "O_ORDERDATE").isSome = true) :
    executeQuery5 r_name start_date end_date num_threads customer_data orders_data
        lineitem_data supplier_data nation_data region_data results =
      .ok (true, mapSet results r_name 0) ∧
    mapFind (mapSet results r_name 0) r_name = some 0 := by
  obtain ⟨n, rfl⟩ := Int.eq_ofNat_of_zero_le (Int.le_trans (by decide) h1)
  refine ⟨?_, mapFind_mapSet_self _ _ _⟩
  rw [executeQuery5_eq r_name start_date end_date n customer_data orders_data lineitem_data
    supplier_data nation_data region_data results (by omega) (by omega) h3]
  have hpt : partialTotal orders_data lineitem_data start_date end_date 0 orders_data.length =
      .ok 0 := by
    unfold partialTotal
    apply orderLoop_skip
    intro i hi t
    have hi' : i < orders_data.length := by
      simp [List.mem_range'] at hi
      omega
    have hget : orders_data.get? i = some (orders_data.get ⟨i, hi'⟩) := List.get?_eq_get hi'
    obtain ⟨d, hd⟩ := Option.isSome_iff_exists.1 (hdate _ (List.get?_mem hget))
    have hwin : ¬ (inWindow start_date end_date d = true) := by
      rw [inWindow_iff]
      rintro ⟨ha, hb⟩
      exact absurd hlt (not_lt.2 (le_trans ha hb))
    simp only [orderStep, hget, mapAt, hd, hwin, if_false, Bool.false_eq_true]
  rw [hpt]

/-- C10 amended, at the scenario with the two dates exchanged. -/
theorem executeQuery5_empty_window_witness :
    executeQuery5 "ASIA" "1995-12-31" "1995-01-01" 2 [] scenarioOrders scenarioLineitem [] []
        [] [] = .ok (true, mapSet [] "ASIA" 0) ∧
      mapSet ([] : Results) "ASIA" 0 = [("ASIA", Dbl.fin 0)] :=
  ⟨(executeQuery5_empty_window "ASIA" "1995-12-31" "1995-01-01" 2 [] scenarioOrders
    scenarioLineitem [] [] [] [] (by decide) (by decide) (by decide)
    ((strLe_eq_false_iff _ _).1 (by decide)) (by decide)).1, by decide!⟩

/-- C11 fails as stated: for an order inside the window, a lineitem row without an
`L_ORDERKEY` column (so no row has a key equal to the order's) makes `processData` throw
`std::out_of_range`. -/
theorem processData_keyless_lineitem_counterexample :
    (∀ l ∈ ([[]] : Table), mapFind l "L_ORDERKEY" ≠ some "1") ∧
      mapFind (mkOrder "1" "1995-06-01") "O_ORDERKEY" = some "1" ∧
      processData scenarioOrders [[]] "ASIA" "1995-01-01" "1995-12-31" [] 0 1 =
        .error .out_of_range :=
  ⟨by decide, by decide, by decide⟩

/-- C11, amended. An order that carries `O_ORDERDATE` and `O_ORDERKEY`, when every lineitem
row carries an `L_ORDERKEY` different from the order's key, leaves the total unchanged and
raises no error, inside the window or not, whatever the other fields of the rows are; and a
worker whose table holds only such orders returns normally and adds `0` to
`results[r_name]`. -/
theorem no_match_safety (orders_data lineitem_data : Table) (start_date end_date : String) :
    (∀ (total_revenue : Dbl) (i : Nat) (order : Row) (d k : String),
      orders_data.get? i = some order → mapFind order "O_ORDERDATE" = some d →
      mapFind order "O_ORDERKEY" = some k →
      (∀ l ∈ lineitem_data, ∃ k', mapFind l "L_ORDERKEY" = some k' ∧ k' ≠ k) →
      orderStep orders_data lineitem_data start_date end_date total_revenue i =
        .ok total_revenue) ∧
    (∀ (r_name : String) (results : Results) (start stop : Nat),
      stop ≤ orders_data.length →
      (∀ order ∈ orders_data, ∃ d k, mapFind order "O_ORDERDATE" = some d ∧
        mapFind order "O_ORDERKEY" = some k ∧
        ∀ l ∈ lineitem_data, ∃ k', mapFind l "L_ORDERKEY" = some k' ∧ k' ≠ k) →
      processData orders_data lineitem_data r_name start_date end_date results start stop =
        .ok (mapAdd results r_name 0)) := by
  refine ⟨fun t i order d k ho hd hk hl =>
    orderStep_no_match orders_data lineitem_data start_date end_date t i order d k ho hd hk hl,
    ?_⟩
  intro r_name results start stop hstop hall
  unfold processData partialTotal
  rw [orderLoop_skip orders_data lineitem_data start_date end_date]
  intro i hi t
  have hi' : i < orders_data.length := by
    simp [List.mem_range'] at hi
    omega
  have hget : orders_data.get? i = some (orders_data.get ⟨i, hi'⟩) := List.get?_eq_get hi'
  obtain ⟨d, k, hd, hk, hl⟩ := hall _ (List.get?_mem hget)
  exact orderStep_no_match orders_data lineitem_data start_date end_date t i _ d k hget hd hk hl

/-- C11 amended, for two orders and a lineitem row of another key whose price and discount are
no numbers. -/
theorem no_match_safety_witness :
    processData windowOrders [mkLineitem "9" "n/a" ""] "ASIA" "1995-01-01" "1995-12-31"
        [("ASIA", Dbl.fin 5)] 0 2 = .ok (mapAdd [("ASIA", Dbl.fin 5)] "ASIA" 0) ∧
      mapAdd [("ASIA", Dbl.fin 5)] "ASIA" 0 = [("ASIA", Dbl.fin 5)] :=
  ⟨(no_match_safety windowOrders [mkLineitem "9" "n/a" ""] "1995-01-01" "1995-12-31").2 "ASIA"
    [("ASIA", Dbl.fin 5)] 0 2 (by decide) (by
      intro order ho
      simp only [windowOrders, List.mem_cons, List.not_mem_nil, or_false] at ho
      rcases ho with rfl | rfl
      · refine ⟨"1995-06-01", "1", by decide, by decide, ?_⟩
        intro l hl
        simp only [List.mem_singleton] at hl
        subst hl
        exact ⟨"9", by decide, by decide⟩
      · refine ⟨"1996-06-01", "2", by decide, by decide, ?_⟩
        intro l hl
        simp only [List.mem_singleton] at hl
        subst hl
        exact ⟨"9", by decide, by decide⟩),
    by decide!⟩

/-- C13. With the same orders table, lineitem table, dates and `num_threads`, two runs of
`executeQuery5` with any two region names, any customer, supplier, nation and region tables
and any two result maps either both fail in the same way or both return `true` and store the
same value, the first under `r1`, the second under `r2`. -/
theorem region_name_label_only (r1 r2 start_date end_date : String) (num_threads : Int)
    (customer1 customer2 orders_data lineitem_data supplier1 supplier2 nation1 nation2
      region1 region2 : Table) (results1 results2 : Results) :
    (∃ e, executeQuery5 r1 start_date end_date num_threads customer1 orders_data lineitem_data
          supplier1 nation1 region1 results1 = .error e ∧
        executeQuery5 r2 start_date end_date num_threads customer2 orders_data lineitem_data
          supplier2 nation2 region2 results2 = .error e) ∨
      ∃ v, executeQuery5 r1 start_date end_date num_threads customer1 orders_data lineitem_data
          supplier1 nation1 region1 results1 = .ok (true, mapSet results1 r1 v) ∧
        executeQuery5 r2 start_date end_date num_threads customer2 orders_data lineitem_data
          supplier2 nation2 region2 results2 = .ok (true, mapSet results2 r2 v) ∧
        mapFind (mapSet results1 r1 v) r1 = some v ∧
        mapFind (mapSet results2 r2 v) r2 = some v := by
  rcases executeQuery5_label r1 r2 start_date end_date num_threads customer1 customer2
    orders_data lineitem_data supplier1 supplier2 nation1 nation2 region1 region2 results1
    results2 with h | ⟨v, h1, h2⟩
  · exact Or.inl h
  · exact Or.inr ⟨v, h1, h2, mapFind_mapSet_self _ _ _, mapFind_mapSet_self _ _ _⟩

/-- C14 fails on the code: the five required flags, each once with a non-empty value and no
`--threads`, make `argc = 11`, and `parseArgs` returns `false` on `argc < 13` with the
parameters at their defaults; its loop and its final check would accept these arguments with
`num_threads = 1`, and with `--threads 1` appended `parseArgs` returns `true`. -/
theorem parseArgs_without_threads_rejected :
    ["query5", "--r_name", "ASIA", "--start_date", "1995-01-01", "--end_date", "1995-12-31",
        "--table_path", "data", "--result_path", "out.txt"].length = 11 ∧
      parseArgs ["query5", "--r_name", "ASIA", "--start_date", "1995-01-01", "--end_date",
        "1995-12-31", "--table_path", "data", "--result_path", "out.txt"] =
        .ok (false, defaultArgs) ∧
      parseLoop ["--r_name", "ASIA", "--start_date", "1995-01-01", "--end_date", "1995-12-31",
        "--table_path", "data", "--result_path", "out.txt"] defaultArgs =
        .ok (true, ⟨"ASIA", "1995-01-01", "1995-12-31", 1, "data", "out.txt"⟩) ∧
      parseArgs ["query5", "--r_name", "ASIA", "--start_date", "1995-01-01", "--end_date",
        "1995-12-31", "--table_path", "data", "--result_path", "out.txt", "--threads", "1"] =
        .ok (true, ⟨"ASIA", "1995-01-01", "1995-12-31", 1, "data", "out.txt"⟩) :=
  ⟨by decide, by decide, by decide, by decide⟩

/-- C15 fails as stated: with `--result_path` absent and `--threads abc` met first,
`parseArgs` does not return `false`, `std::stoi` throws `std::invalid_argument`. -/
theorem parseArgs_missing_flag_counterexample :
    "--result_path" ∉ ["query5", "--threads", "abc", "--r_name", "ASIA", "--r_name", "ASIA",
        "--start_date", "1995-01-01", "--end_date", "1995-12-31", "--table_path", "data"] ∧
      parseArgs ["query5", "--threads", "abc", "--r_name", "ASIA", "--r_name", "ASIA",
        "--start_date", "1995-01-01", "--end_date", "1995-12-31", "--table_path", "data"] =
        .error .invalid_argument :=
  ⟨by decide!, by decide!⟩

/-- C15, amended. If one of the five required flags is absent, or the last flag has no
value, or an argument in flag position is not one of the six recognised flags, then
`parseArgs` does not return `true`, and it returns `false` when no argument is `--threads`;
and whenever `parseArgs` returns `true` the five required strings are non-empty. -/
theorem parseArgs_rejects (argv : List String) :
    (((∃ f ∈ requiredFlags, f ∉ argv.tail) ∨ argv.tail.length % 2 = 1 ∨
        (∃ x ∈ flagPositions argv.tail, x ∉ knownFlags)) →
      (∀ a, parseArgs argv ≠ .ok (true, a)) ∧
        ("--threads" ∉ argv.tail → ∃ a, parseArgs argv = .ok (false, a))) ∧
    (∀ a, parseArgs argv = .ok (true, a) →
      a.r_name ≠ "" ∧ a.start_date ≠ "" ∧ a.end_date ≠ "" ∧ a.table_path ≠ "" ∧
        a.result_path ≠ "") := by
  refine ⟨fun hbad => ?_, fun a h => (parseArgs_true argv a h).2⟩
  have hnot : ∀ a, parseArgs argv ≠ .ok (true, a) := by
    intro a h
    obtain ⟨hl, n1, n2, n3, n4, n5⟩ := parseArgs_true argv a h
    obtain ⟨i1, i2, i3, i4, i5, i6, i7, _⟩ := parseLoop_true argv.tail defaultArgs a hl
    rcases hbad with ⟨f, hf, hmiss⟩ | hodd | ⟨x, hx, hunk⟩
    · simp only [requiredFlags, List.mem_cons, List.not_mem_nil, or_false] at hf
      rcases hf with rfl | rfl | rfl | rfl | rfl
      · exact n1 (i3 hmiss)
      · exact n2 (i4 hmiss)
      · exact n3 (i5 hmiss)
      · exact n4 (i6 hmiss)
      · exact n5 (i7 hmiss)
    · omega
    · exact hunk (i1 x hx)
  refine ⟨hnot, fun hth => ?_⟩
  obtain ⟨b, a, h⟩ := parseArgs_returns argv hth
  cases b
  · exact ⟨a, h⟩
  · exact absurd h (hnot a)

/-- C15 amended, for an argument list with the unknown flag `--colour` and no
`--result_path`. -/
theorem parseArgs_rejects_witness :
    (∀ a, parseArgs ["query5", "--r_name", "ASIA", "--start_date", "1995-01-01", "--end_date",
        "1995-12-31", "--table_path", "data", "--colour", "red", "--threads", "2"] ≠
        .ok (true, a)) ∧
      parseArgs ["query5", "--r_name", "ASIA", "--start_date", "1995-01-01", "--end_date",
        "1995-12-31", "--table_path", "data", "--colour", "red", "--threads", "2"] =
        .ok (false, ⟨"ASIA", "1995-01-01", "1995-12-31", 1, "data", ""⟩) :=
  ⟨((parseArgs_rejects ["query5", "--r_name", "ASIA", "--start_date", "1995-01-01",
      "--end_date", "1995-12-31", "--table_path", "data", "--colour", "red", "--threads",
      "2"]).1 (Or.inl ⟨"--result_path", by decide, by decide⟩)).1, by decide⟩

/-- C16 fails as stated: `--threads 0` is accepted, `parseArgs` returns `true` with
`num_threads = 0`. -/
theorem parseArgs_zero_threads_counterexample :
    parseArgs ["query5", "--r_name", "ASIA", "--start_date", "1995-01-01", "--end_date",
        "1995-12-31", "--table_path", "data", "--result_path", "out.txt", "--threads", "0"] =
        .ok (true, ⟨"ASIA", "1995-01-01", "1995-12-31", 0, "data", "out.txt"⟩) ∧
      ¬ ((1 : Int) ≤ 0) :=
  ⟨by decide!, by decide!⟩

/-- C16, amended. The value of `--threads` is converted by `std::stoi` and not checked: after
the five required flags with non-empty values, `--threads v` makes `parseArgs` return `true`
with `num_threads` the converted value, or throw what `std::stoi` throws; whenever `parseArgs`
returns `true`, `num_threads` is `1` or the conversion of an argument; `0`, `-2` and `3x`
convert to `0`, `-2` and `3`, and `abc` throws `std::invalid_argument`. -/
theorem parseArgs_threads_unchecked (prog r s e t p v : String) (hr : r ≠ "") (hs : s ≠ "")
    (he : e ≠ "") (ht : t ≠ "") (hp : p ≠ "") :
    parseArgs [prog, "--r_name", r, "--start_date", s, "--end_date", e, "--table_path", t,
        "--result_path", p, "--threads", v] =
      (match stoi v with
        | .error x => .error x
        | .ok n => .ok (true, ⟨r, s, e, n, t, p⟩)) ∧
    (∀ (argv : List String) (a : Args), parseArgs argv = .ok (true, a) →
      a.num_threads = 1 ∨ ∃ x ∈ argv, stoi x = .ok a.num_threads) ∧
    stoi "0" = .ok 0 ∧ stoi "-2" = .ok (-2) ∧ stoi "3x" = .ok 3 ∧
    stoi "abc" = .error .invalid_argument := by
  refine ⟨?_, ?_, by decide, by decide, by decide, by decide⟩
  · have hlen : ¬ ([prog, "--r_name", r, "--start_date", s, "--end_date", e, "--table_path", t,
        "--result_path", p, "--threads", v].length < 13) := by
      simp only [List.length_cons, List.length_nil]
      omega
    unfold parseArgs
    rw [if_neg hlen, List.tail_cons, parseLoop_r_name, parseLoop_start_date,
      parseLoop_end_date, parseLoop_table_path, parseLoop_result_path, parseLoop_threads]
    cases stoi v with
    | error x => rfl
    | ok n =>
      have hne : ¬ (r = "" ∨ s = "" ∨ e = "" ∨ t = "" ∨ p = "") := by
        simp only [hr, hs, he, ht, hp, or_self, not_false_eq_true]
      simp only [parseLoop, defaultArgs]
      rw [if_neg hne]
  · intro argv a h
    obtain ⟨hl, _⟩ := parseArgs_true argv a h
    obtain ⟨_, _, _, _, _, _, _, i8⟩ := parseLoop_true argv.tail defaultArgs a hl
    rcases i8 with h8 | ⟨x, hx, h8⟩
    · exact Or.inl h8
    · exact Or.inr ⟨x, List.mem_of_mem_tail hx, h8⟩

/-- C16 amended, for the values `-2` and `abc`. -/
theorem parseArgs_threads_unchecked_witness :
    parseArgs ["query5", "--r_name", "ASIA", "--start_date", "1995-01-01", "--end_date",
        "1995-12-31", "--table_path", "data", "--result_path", "out.txt", "--threads", "-2"] =
      .ok (true, ⟨"ASIA", "1995-01-01", "1995-12-31", -2, "data", "out.txt"⟩) ∧
    parseArgs ["query5", "--r_name", "ASIA", "--start_date", "1995-01-01", "--end_date",
        "1995-12-31", "--table_path", "data", "--result_path", "out.txt", "--threads", "abc"] =
      .error .invalid_argument :=
  ⟨by
    have h := (parseArgs_threads_unchecked "query5" "ASIA" "1995-01-01" "1995-12-31" "data"
      "out.txt" "-2" (by decide) (by decide) (by decide) (by decide) (by decide)).1
    have hs : stoi "-2" = .ok (-2) := by decide
    rw [hs] at h
    exact h,
   by
    have h := (parseArgs_threads_unchecked "query5" "ASIA" "1995-01-01" "1995-12-31" "data"
      "out.txt" "abc" (by decide) (by decide) (by decide) (by decide) (by decide)).1
    have hs : stoi "abc" = .error .invalid_argument := by decide
    rw [hs] at h
    exact h⟩

/-- C17. With the file system a partial map from path to contents, `readTPCHData` returns
`false` whenever one of the six files under `table_path` cannot be opened, and when it returns
`true` all six were opened and each table has received one row for each line of its file, in
file order. -/
theorem readTPCHData_fails_explicitly (fs : FileSystem) (table_path : String) (t : Tables) :
    ((∃ name ∈ tableFiles, fs (table_path ++ name) = none) →
      (readTPCHData fs table_path t).1 = false) ∧
    ((readTPCHData fs table_path t).1 = true →
      ∃ c o l s n r, fs (table_path ++ "/customer.tbl") = some c ∧
        fs (table_path ++ "/orders.tbl") = some o ∧
        fs (table_path ++ "/lineitem.tbl") = some l ∧
        fs (table_path ++ "/supplier.tbl") = some s ∧
        fs (table_path ++ "/nation.tbl") = some n ∧
        fs (table_path ++ "/region.tbl") = some r ∧
        (readTPCHData fs table_path t).2 =
          ⟨t.customer_data ++ (linesOf c).map (rowOfLine customer_headers),
            t.orders_data ++ (linesOf o).map (rowOfLine orders_headers),
            t.lineitem_data ++ (linesOf l).map (rowOfLine lineitem_headers),
            t.supplier_data ++ (linesOf s).map (rowOfLine supplier_headers),
            t.nation_data ++ (linesOf n).map (rowOfLine nation_headers),
            t.region_data ++ (linesOf r).map (rowOfLine region_headers)⟩) := by
  have key : (readTPCHData fs table_path t).1 = true →
      ∃ c o l s n r, fs (table_path ++ "/customer.tbl") = some c ∧
        fs (table_path ++ "/orders.tbl") = some o ∧
        fs (table_path ++ "/lineitem.tbl") = some l ∧
        fs (table_path ++ "/supplier.tbl") = some s ∧
        fs (table_path ++ "/nation.tbl") = some n ∧
        fs (table_path ++ "/region.tbl") = some r ∧
        (readTPCHData fs table_path t).2 =
          ⟨t.customer_data ++ (linesOf c).map (rowOfLine customer_headers),
            t.orders_data ++ (linesOf o).map (rowOfLine orders_headers),
            t.lineitem_data ++ (linesOf l).map (rowOfLine lineitem_headers),
            t.supplier_data ++ (linesOf s).map (rowOfLine supplier_headers),
            t.nation_data ++ (linesOf n).map (rowOfLine nation_headers),
            t.region_data ++ (linesOf r).map (rowOfLine region_headers)⟩ := by
    unfold readTPCHData readTable linesOf
    cases h1 : fs (table_path ++ "/customer.tbl") with
    | none => simp
    | some c =>
      cases h2 : fs (table_path ++ "/orders.tbl") with
      | none => simp
      | some o =>
        cases h3 : fs (table_path ++ "/lineitem.tbl") with
        | none => simp
        | some l =>
          cases h4 : fs (table_path ++ "/supplier.tbl") with
          | none => simp
          | some s =>
            cases h5 : fs (table_path ++ "/nation.tbl") with
            | none => simp
            | some n =>
              cases h6 : fs (table_path ++ "/region.tbl") with
              | none => simp
              | some r => simp
  refine ⟨?_, key⟩
  rintro ⟨name, hname, hnone⟩
  cases hb : (readTPCHData fs table_path t).1 with
  | false => rfl
  | true =>
    obtain ⟨c, o, l, s, n, r, h1, h2, h3, h4, h5, h6, _⟩ := key hb
    simp only [tableFiles, List.mem_cons, List.not_mem_nil, or_false] at hname
    rcases hname with rfl | rfl | rfl | rfl | rfl | rfl
    · rw [h1] at hnone; cases hnone
    · rw [h2] at hnone; cases hnone
    · rw [h3] at hnone; cases hnone
    · rw [h4] at hnone; cases hnone
    · rw [h5] at hnone; cases hnone
    · rw [h6] at hnone; cases hnone

/-- C17 for a directory without `lineitem.tbl`, and for one whose six files hold two
lines. -/
theorem readTPCHData_fails_explicitly_witness :
    (readTPCHData (fun path => if path = "d/lineitem.tbl" then none else some "1|2|\n9|")
        "d" ⟨[], [], [], [], [], []⟩).1 = false ∧
      readTPCHData (fun _ => some "1|2|\n9|") "d" ⟨[], [], [], [], [], []⟩ =
        (true, ⟨[[("C_CUSTKEY", "1"), ("C_NAME", "2")], [("C_CUSTKEY", "9")]],
          [[("O_CUSTKEY", "2"), ("O_ORDERKEY", "1")], [("O_ORDERKEY", "9")]],
          [[("L_ORDERKEY", "1"), ("L_PARTKEY", "2")], [("L_ORDERKEY", "9")]],
          [[("S_NAME", "2"), ("S_SUPPKEY", "1")], [("S_SUPPKEY", "9")]],
          [[("N_NAME", "2"), ("N_NATIONKEY", "1")], [("N_NATIONKEY", "9")]],
          [[("R_NAME", "2"), ("R_REGIONKEY", "1")], [("R_REGIONKEY", "9")]]⟩) :=
  ⟨(readTPCHData_fails_explicitly
      (fun path => if path = "d/lineitem.tbl" then none else some "1|2|\n9|") "d"
      ⟨[], [], [], [], [], []⟩).1 ⟨"/lineitem.tbl", by decide, by decide⟩, by decide⟩

/-- C19. When `processData` or `executeQuery5` returns, the result map has an entry for
`r_name` and, for every other key, the same presence and value as before the call. -/
theorem result_map_frame (orders_data lineitem_data : Table)
    (r_name start_date end_date : String) (results : Results) :
    (∀ (start stop : Nat) (res : Results),
      processData orders_data lineitem_data r_name start_date end_date results start stop =
        .ok res →
      (mapFind res r_name).isSome = true ∧
        ∀ k, k ≠ r_name → mapFind res k = mapFind results k) ∧
    (∀ (num_threads : Int) (customer_data supplier_data nation_data region_data : Table)
      (b : Bool) (res : Results),
      executeQuery5 r_name start_date end_date num_threads customer_data orders_data
        lineitem_data supplier_data nation_data region_data results = .ok (b, res) →
      (mapFind res r_name).isSome = true ∧
        ∀ k, k ≠ r_name → mapFind res k = mapFind results k) := by
  constructor
  · intro start stop res h
    unfold processData at h
    cases hp : partialTotal orders_data lineitem_data start_date end_date start stop with
    | error e => rw [hp] at h; cases h
    | ok t =>
      rw [hp] at h
      cases h
      exact ⟨by rw [mapFind_mapAdd_self]; rfl, fun k hk => mapFind_mapAdd_other _ _ _ _ hk⟩
  · intro num_threads customer_data supplier_data nation_data region_data b res h
    obtain ⟨_, v, rfl⟩ := executeQuery5_ok_mapSet r_name start_date end_date num_threads
      customer_data orders_data lineitem_data supplier_data nation_data region_data results
      res b h
    exact ⟨by rw [mapFind_mapSet_self]; rfl, fun k hk => mapFind_mapSet_other _ _ _ _ hk⟩

/-- C19 for the scenario run on a map that holds an entry for another region. -/
theorem result_map_frame_witness :
    (mapFind [("ASIA", Dbl.fin 90), ("EUROPE", Dbl.fin 7)] "ASIA").isSome = true ∧
      ∀ k, k ≠ "ASIA" →
        mapFind [("ASIA", Dbl.fin 90), ("EUROPE", Dbl.fin 7)] k =
          mapFind [("EUROPE", Dbl.fin 7)] k :=
  (result_map_frame scenarioOrders scenarioLineitem "ASIA" "1995-01-01" "1995-12-31"
    [("EUROPE", Dbl.fin 7)]).2 2 [] [] [] [] true [("ASIA", Dbl.fin 90), ("EUROPE", Dbl.fin 7)]
    (by decide!)

/-- C20. For a header list without repeated names, as each of the six header lists that
`readTPCHData` hands to `readTable` is (no other list reaches `readTable`), the row built
from a line maps `headers[i]` to the field `f_i` for every `i` below both counts, and its
keys are exactly those headers; fields beyond the header count are ignored; `readTable`
appends one such row for each line, also for a short or an empty line, whose row lacks the
remaining columns; the columns read by the engine are all present exactly when the line has
at least 5 (orders) or 7 (lineitem) fields. -/
theorem rowOfLine_columns (headers : List String) (line : String) (hnd : headers.Nodup) :
    (∀ i h f, headers.get? i = some h → (fieldsOf line).get? i = some f →
      mapFind (rowOfLine headers line) h = some f) ∧
    (∀ h, (mapFind (rowOfLine headers line) h).isSome = true ↔
      ∃ i, i < (fieldsOf line).length ∧ headers.get? i = some h) ∧
    (∀ (fs : FileSystem) (filename contents : String) (data : Table),
      fs filename = some contents →
      readTable fs filename data headers =
        (true, data ++ (linesOf contents).map (rowOfLine headers))) ∧
    rowOfLine headers "" = [] ∧
    (((mapFind (rowOfLine orders_headers line) "O_ORDERKEY").isSome = true ∧
        (mapFind (rowOfLine orders_headers line) "O_ORDERDATE").isSome = true) ↔
      5 ≤ (fieldsOf line).length) ∧
    (((mapFind (rowOfLine lineitem_headers line) "L_ORDERKEY").isSome = true ∧
        (mapFind (rowOfLine lineitem_headers line) "L_EXTENDEDPRICE").isSome = true ∧
        (mapFind (rowOfLine lineitem_headers line) "L_DISCOUNT").isSome = true) ↔
      7 ≤ (fieldsOf line).length) ∧
    customer_headers.Nodup ∧ orders_headers.Nodup ∧ lineitem_headers.Nodup ∧
    supplier_headers.Nodup ∧ nation_headers.Nodup ∧ region_headers.Nodup := by
  refine ⟨?_, rowOfLine_isSome headers line, ?_, rfl, ?_, ?_, by decide, by decide, by decide,
    by decide, by decide, by decide⟩
  · intro i h f hh hf
    unfold rowOfLine
    exact fillRow_hit headers hnd _ 0 [] i h f (by rw [Nat.zero_add]; exact hh) hf
  · intro fs filename contents data hfs
    unfold readTable linesOf
    rw [hfs]
  · simp only [rowOfLine_isSome, (orders_headers_index _).1, (orders_headers_index _).2]
    constructor
    · rintro ⟨_, ⟨i, hi, rfl⟩⟩
      omega
    · intro h
      exact ⟨⟨0, by omega, rfl⟩, ⟨4, by omega, rfl⟩⟩
  · simp only [rowOfLine_isSome, (lineitem_headers_index _).1, (lineitem_headers_index _).2.1,
      (lineitem_headers_index _).2.2]
    constructor
    · rintro ⟨_, _, ⟨i, hi, rfl⟩⟩
      omega
    · intro h
      exact ⟨⟨0, by omega, rfl⟩, ⟨5, by omega, rfl⟩, ⟨6, by omega, rfl⟩⟩

/-- C20 for an orders line of five fields, a region line with a field too many, and an
orders line of four fields. -/
theorem rowOfLine_columns_witness :
    mapFind (rowOfLine orders_headers "1|7|O|100.00|1995-06-01") "O_ORDERDATE" =
        some "1995-06-01" ∧
      rowOfLine region_headers "0|AFRICA|c|extra|" =
        [("R_COMMENT", "c"), ("R_NAME", "AFRICA"), ("R_REGIONKEY", "0")] ∧
      rowOfLine orders_headers "1|7|O|100.00" =
        [("O_CUSTKEY", "7"), ("O_ORDERKEY", "1"), ("O_ORDERSTATUS", "O"),
          ("O_TOTALPRICE", "100.00")] :=
  ⟨(rowOfLine_columns orders_headers "1|7|O|100.00|1995-06-01" (by decide)).1 4 "O_ORDERDATE"
    "1995-06-01" (by decide) (by decide), by decide, by decide⟩

end Query5
